import Mathlib

set_option maxHeartbeats 1000000

/-! Shallow embedding of the rename-planning and two-phase rename core of the
repository (src/services/renamer.py), together with proofs of the spec's
claims about it.

Modelling conventions:
  * a `pathlib.Path` is modelled as a parent-directory string plus a final
    filename; the source only uses `name`, `stem`, `suffix`, `with_name`
    and `directory / name` on paths, all of which act on these two fields;
  * strings are Lean `String`s; `str.lower()` is modelled as an ASCII
    character-wise lowering (the filenames in play are ASCII);
  * the snapshot `directory.iterdir()` (filtered to regular files) is an
    explicit input: the list of filenames present in the directory;
  * the filesystem state seen by the executor is the list of paths present;
    a successful `Path.rename(src, dst)` removes `src` and makes `dst`
    present; whether any one underlying rename attempt succeeds or raises
    is decided by an environment oracle `env : Nat → Option PyError`
    consulted at a global attempt counter (the `clock`), which lets the
    theorems quantify over every possible pattern of transient and
    permanent filesystem errors;
  * `uuid.uuid4().hex` is a stream `uuids : Nat → String` indexed by the
    position of the mapping in the batch;
  * `time.sleep(base_delay * 2 ** attempt)` with `base_delay = 0.05`
    seconds is recorded as an exact `50 * 2 ^ attempt` milliseconds
    (idealizing the binary floating-point value of 0.05).
-/

/-- Model of a `pathlib.Path`: parent directory plus final filename. -/
structure PyPath where
  dir : String
  name : String
deriving DecidableEq

/-- `Path.with_name`: replace the final filename, keep the directory. -/
def PyPath.withName (p : PyPath) (n : String) : PyPath := ⟨p.dir, n⟩

/-- Index of the last `'.'` in a character list (`str.rfind('.')`),
`none` when there is no dot (Python returns `-1`). -/
def lastDotIdx : List Char → Option Nat
  | [] => none
  | c :: rest =>
    match lastDotIdx rest with
    | some i => some (i + 1)
    | none => if c = '.' then some 0 else none

/-- The `(stem, suffix)` split used by `pathlib`: with `i = name.rfind('.')`,
the suffix is `name[i:]` when `0 < i < len(name) - 1` and empty otherwise. -/
def pySplit (cs : List Char) : List Char × List Char :=
  match lastDotIdx cs with
  | none => (cs, [])
  | some i => if 0 < i ∧ i + 1 < cs.length then (cs.take i, cs.drop i) else (cs, [])

/-- `Path.stem` of a filename. -/
def pyStem (s : String) : String := String.mk (pySplit s.toList).1

/-- `Path.suffix` of a filename. -/
def pySuffix (s : String) : String := String.mk (pySplit s.toList).2

/-- `str.lower()` restricted to ASCII, character-wise. -/
def lowerStr (s : String) : String := String.mk (s.toList.map Char.toLower)

/-- `ILLEGAL_CHARS = set('/\\:*?"<>|')` from the source. -/
def ILLEGAL_CHARS : List Char := ['/', '\\', ':', '*', '?', '\"', '<', '>', '|']

/-- `_has_illegal_chars(name)`: does any character of `name` lie in
`ILLEGAL_CHARS`? -/
def hasIllegalChars (s : String) : Bool := s.toList.any (fun c => ILLEGAL_CHARS.contains c)

/-- Decimal digit list of a natural number, fuel-driven so that it reduces
definitionally; `natDigitsAux (n+1) n` is total for `n`. -/
def natDigitsAux : Nat → Nat → List Char
  | 0, _ => []
  | fuel + 1, n =>
    if n < 10 then [Nat.digitChar n]
    else natDigitsAux fuel (n / 10) ++ [Nat.digitChar (n % 10)]

/-- Decimal digit characters of `n`, most significant first: the model of
Python `str(n)` for a natural number. -/
def natDigitsList (n : Nat) : List Char := natDigitsAux (n + 1) n

/-- Python `str(n)` for a natural number. -/
def pyStr (n : Nat) : String := String.mk (natDigitsList n)

/-- Number of decimal digits, fuel-driven companion of `natDigitsAux`. -/
def digitCountAux : Nat → Nat → Nat
  | 0, _ => 0
  | fuel + 1, n => if n < 10 then 1 else digitCountAux fuel (n / 10) + 1

/-- Number of decimal digits of `n` (spec-side `digit_count`). -/
def digitCount (n : Nat) : Nat := digitCountAux (n + 1) n

/-- `str.zfill(width)` for non-negative digit strings: left-pad with `'0'`
up to `width`. -/
def zfill (s : String) (width : Nat) : String :=
  String.mk (List.replicate (width - s.length) '0' ++ s.toList)

/-- `compute_number_width(total_images) = max(3, len(str(max(1, total_images))))`
from the source. -/
def compute_number_width (total_images : Nat) : Nat :=
  max 3 (pyStr (max 1 total_images)).length

/-- A planned rename row: `PreviewRow(old_path, new_path, status)`; the
status strings are the source's literals (`"OK"`, `"非法名称"` for an
illegal name, `"新名重复"` for a duplicate target, `"与现有文件冲突"` for a
conflict with an existing file). -/
structure PreviewRow where
  old_path : PyPath
  new_path : PyPath
  status : String
deriving DecidableEq

/-- `f"{prefix}{number}{ext}"` with `number = str(idx).zfill(width)`. -/
def plannedName (pre : String) (width idx : Nat) (ext : String) : String :=
  pre ++ zfill (pyStr idx) width ++ ext

/-- `new_names_counter[low] = new_names_counter.get(low, 0) + 1`: bump the
occurrence count of `low` in the counter map. -/
def bumpCounter (c : String → Nat) (low : String) : String → Nat :=
  fun s => if s = low then c s + 1 else c s

/-- The loop body of `generate_preview_mappings`: `counter` is
`new_names_counter` (a map from case-folded new name to its occurrence
count so far), `idx` the 1-based `enumerate` index. The three status
assignments overwrite one another exactly as in the source. -/
def planLoop (dirName : String) (existingLower : List String) (pre : String) (width : Nat) :
    List PyPath → Nat → (String → Nat) → List PreviewRow
  | [], _, _ => []
  | old :: rest, idx, counter =>
    let ext := pySuffix old.name
    let newName := plannedName pre width idx ext
    let status1 := if hasIllegalChars (pyStem newName) then "非法名称" else "OK"
    let low := lowerStr newName
    let counter' := bumpCounter counter low
    let status2 := if 1 < counter' low then "新名重复" else status1
    let status3 :=
      if lowerStr old.name ≠ low ∧ low ∈ existingLower then "与现有文件冲突" else status2
    ⟨old, ⟨dirName, newName⟩, status3⟩ :: planLoop dirName existingLower pre width rest (idx + 1) counter'

/-- `generate_preview_mappings(directory, files, prefix)`. The directory
snapshot (`{p.name.lower() for p in directory.iterdir() if p.is_file()}`)
is taken from `snapshot`, the list of filenames of the regular files
present in the directory at the start of the batch. -/
def generate_preview_mappings (dirName : String) (snapshot : List String)
    (files : List PyPath) (pre : String) : List PreviewRow :=
  planLoop dirName (snapshot.map lowerStr) pre (compute_number_width files.length) files 1
    (fun _ => 0)

/-- `has_preview_conflicts(rows)`: some row's status is not `"OK"`. -/
def has_preview_conflicts (rows : List PreviewRow) : Bool :=
  rows.any (fun r => r.status ≠ "OK")

/-- Does `pat` occur as a contiguous run inside `cs`? Models Python's
substring containment `pat in s` (and the occurrence search of
`str.split`). -/
def hasMatch (pat : List Char) : List Char → Bool
  | [] => pat.isEmpty
  | c :: rest => pat.isPrefixOf (c :: rest) || hasMatch pat rest

/-- The characters of `cs` strictly before the first occurrence of the
(non-empty) separator `pat`, the whole of `cs` when `pat` does not occur:
Python's `cs.split(pat)[0]`. -/
def takeBeforeMatch (pat : List Char) : List Char → List Char
  | [] => []
  | c :: rest =>
    if pat.isPrefixOf (c :: rest) then [] else c :: takeBeforeMatch pat rest

/-- The temp-name marker `".__tmp__"`. -/
def tmpMarker : List Char := ['.', '_', '_', 't', 'm', 'p', '_', '_']

/-- A raised Python `OSError`-like exception, carrying the attributes the
retry classifier reads: whether it is a `PermissionError`, the optional
`winerror` and `errno` codes, and `str(e)`. -/
structure PyError where
  isPermissionError : Bool
  winerror : Option Int
  errnoCode : Option Int
  msg : String
deriving DecidableEq

/-- The transient-error classification inside `_rename_with_retry`:
`isinstance(e, PermissionError) or winerr in (5, 32, 33) or
err_no in (errno.EACCES, errno.EBUSY) or ("used by another process" in msg
or "being used" in msg)` with `msg = str(e).lower()`; `errno.EACCES = 13`
and `errno.EBUSY = 16`. -/
def transient (e : PyError) : Bool :=
  e.isPermissionError
    || (e.winerror == some 5 || e.winerror == some 32 || e.winerror == some 33)
    || (e.errnoCode == some 13 || e.errnoCode == some 16)
    || (hasMatch "used by another process".toList (lowerStr e.msg).toList
        || hasMatch "being used".toList (lowerStr e.msg).toList)

/-- Outcome of one call to `_rename_with_retry`: the raised error (`none`
meaning the rename returned), the filesystem afterwards, the advanced
attempt clock and the list of back-off sleeps performed, in milliseconds. -/
structure RetryOutcome where
  err : Option PyError
  fs : List PyPath
  clock : Nat
  sleeps : List Nat
deriving DecidableEq

/-- Effect on the directory of one successful `src.rename(dst)`: `src` is
gone and `dst` is present. -/
def fsRename (fs : List PyPath) (src dst : PyPath) : List PyPath :=
  let fs' := fs.erase src
  if dst ∈ fs' then fs' else fs' ++ [dst]

/-- The `for attempt in range(retries)` loop of `_rename_with_retry`,
written with `remaining = retries - attempt` as the recursion fuel; the
loop guard `attempt < retries - 1` becomes `1 ≤ remaining - 1`, i.e.
`0 < remaining` after peeling the current iteration. Each underlying
rename attempt consults `env` at the current clock: `none` is a successful
rename (which mutates the filesystem and returns), `some e` is a raised
exception, retried after `time.sleep(0.05 * 2 ** attempt)` seconds
(recorded as `50 * 2 ^ attempt` ms) while it is transient and attempts
remain, re-raised otherwise. The fuel-exhausted base case is the source's
fall-through for `retries = 0` (no attempt, no error). -/
def retryLoopGo (env : Nat → Option PyError) (src dst : PyPath) :
    Nat → Nat → List PyPath → Nat → RetryOutcome
  | 0, _, fs, clock => ⟨none, fs, clock, []⟩
  | remaining + 1, attempt, fs, clock =>
    match env clock with
    | none => ⟨none, fsRename fs src dst, clock + 1, []⟩
    | some e =>
      if 0 < remaining ∧ transient e then
        let r := retryLoopGo env src dst remaining (attempt + 1) fs (clock + 1)
        ⟨r.err, r.fs, r.clock, (50 * 2 ^ attempt) :: r.sleeps⟩
      else ⟨some e, fs, clock + 1, []⟩

/-- `_rename_with_retry(src, dst, retries, base_delay=0.05)`. -/
def renameWithRetry (env : Nat → Option PyError) (src dst : PyPath)
    (fs : List PyPath) (clock : Nat) (retries : Nat) : RetryOutcome :=
  retryLoopGo env src dst retries 0 fs clock

/-- The temp name synthesized in Phase A:
`old.with_name(f"{old.stem}.__tmp__{uuid.uuid4().hex}{old.suffix}")`. -/
def tempName (old : PyPath) (u : String) : PyPath :=
  old.withName (pyStem old.name ++ String.mk tmpMarker ++ u ++ pySuffix old.name)

/-- The rollback origin computed in Phase B's failure handler:
`target.with_name(target.stem.split(".__tmp__")[0] + target.suffix)`
(note: the stem split on the marker is taken from the TARGET path). -/
def rollbackOrigin (target : PyPath) : PyPath :=
  target.withName
    (String.mk (takeBeforeMatch tmpMarker (pyStem target.name).toList) ++ pySuffix target.name)

/-- `(old, new, success, error_message)` as returned by
`two_phase_rename`. -/
structure RenameResult where
  old : PyPath
  new : PyPath
  success : Bool
  error : Option String
deriving DecidableEq

/-- State threaded through Phase A: the `temp_map` dict (insertion-ordered
association list), the `results` list, the filesystem, the attempt clock
and the number of `tick()` progress callbacks made so far. -/
structure AState where
  tempMap : List (PyPath × PyPath)
  results : List RenameResult
  fs : List PyPath
  clock : Nat
  ticks : Nat
deriving DecidableEq

/-- `temp_map[k] = v` with Python-dict semantics: updating an existing key
keeps its insertion position, a new key is appended. -/
def dictInsert (m : List (PyPath × PyPath)) (k v : PyPath) : List (PyPath × PyPath) :=
  if m.any (fun kv => kv.1 == k) then
    m.map (fun kv => if kv.1 = k then (k, v) else kv)
  else m ++ [(k, v)]

/-- Phase A of `two_phase_rename`: for each `(old, new)` mapping, rename
`old` to a fresh temp name with the retrying primitive; on success record
`temp_map[temp] = new` and tick; on failure append
`(old, new, False, "阶段A失败: <str(e)>")` and still tick. `i` is the
position of the mapping in the batch, used to draw its uuid. -/
def phaseA (env : Nat → Option PyError) (uuids : Nat → String) :
    List (PyPath × PyPath) → Nat → AState → AState
  | [], _, st => st
  | (old, tgt) :: rest, i, st =>
    let temp := tempName old (uuids i)
    let r := renameWithRetry env old temp st.fs st.clock 8
    match r.err with
    | none =>
      phaseA env uuids rest (i + 1)
        ⟨dictInsert st.tempMap temp tgt, st.results, r.fs, r.clock, st.ticks + 1⟩
    | some e =>
      phaseA env uuids rest (i + 1)
        ⟨st.tempMap, st.results ++ [⟨old, tgt, false, some ("阶段A失败: " ++ e.msg)⟩],
         r.fs, r.clock, st.ticks + 1⟩

/-- State threaded through Phase B. -/
structure BState where
  results : List RenameResult
  fs : List PyPath
  clock : Nat
  ticks : Nat
deriving DecidableEq

/-- Phase B of `two_phase_rename`: for each surviving `(temp, target)`,
first `raise OSError("目标已存在")` if `target.exists()`; otherwise rename
`temp` to `target` with the retrying primitive. On success append
`(target, target, True, None)` and tick. On any exception `e`, compute
`origin = rollbackOrigin target` and, when `origin` is not occupied,
best-effort rename `temp` back to `origin`, swallowing that rename's own
failure; then append `(origin, target, False, "阶段B失败: <str(e)>")` and
tick. -/
def phaseB (env : Nat → Option PyError) :
    List (PyPath × PyPath) → BState → BState
  | [], st => st
  | (temp, target) :: rest, st =>
    if target ∈ st.fs then
      let origin := rollbackOrigin target
      let st1 : BState :=
        if origin ∈ st.fs then st
        else
          let rb := renameWithRetry env temp origin st.fs st.clock 8
          ⟨st.results, rb.fs, rb.clock, st.ticks⟩
      phaseB env rest
        ⟨st1.results ++ [⟨origin, target, false, some ("阶段B失败: " ++ "目标已存在")⟩],
         st1.fs, st1.clock, st1.ticks + 1⟩
    else
      let r := renameWithRetry env temp target st.fs st.clock 8
      match r.err with
      | none =>
        phaseB env rest
          ⟨st.results ++ [⟨target, target, true, none⟩], r.fs, r.clock, st.ticks + 1⟩
      | some e =>
        let origin := rollbackOrigin target
        let st1 : BState :=
          if origin ∈ r.fs then ⟨st.results, r.fs, r.clock, st.ticks⟩
          else
            let rb := renameWithRetry env temp origin r.fs r.clock 8
            ⟨st.results, rb.fs, rb.clock, st.ticks⟩
        phaseB env rest
          ⟨st1.results ++ [⟨origin, target, false, some ("阶段B失败: " ++ e.msg)⟩],
           st1.fs, st1.clock, st1.ticks + 1⟩

/-- Full outcome of `two_phase_rename`: the returned results, the final
directory contents, the final attempt clock and the total number of
progress-callback invocations. -/
structure ExecOut where
  results : List RenameResult
  fs : List PyPath
  clock : Nat
  ticks : Nat
deriving DecidableEq

/-- `two_phase_rename(mappings, progress_callback)` run against an initial
directory `fs0`, an error environment `env` and a uuid stream `uuids`. -/
def two_phase_rename (env : Nat → Option PyError) (uuids : Nat → String)
    (mappings : List (PyPath × PyPath)) (fs0 : List PyPath) : ExecOut :=
  let stA := phaseA env uuids mappings 0 ⟨[], [], fs0, 0, 0⟩
  let stB := phaseB env stA.tempMap ⟨stA.results, stA.fs, stA.clock, stA.ticks⟩
  ⟨stB.results, stB.fs, stB.clock, stB.ticks⟩

/-- Default row used with `List.getD` when indexing planner output. -/
def defaultRow : PreviewRow := ⟨⟨"", ""⟩, ⟨"", ""⟩, ""⟩

/-- The all-OK planner output: one row per file in input order, the `i`-th
new name being `prefix + zero_pad(idx + i, width) + extension`. -/
def okRows (d : String) (pre : String) (w : Nat) : List PyPath → Nat → List PreviewRow
  | [], _ => []
  | old :: rest, idx =>
    ⟨old, ⟨d, plannedName pre w idx (pySuffix old.name)⟩, "OK"⟩ :: okRows d pre w rest (idx + 1)

/-- The temp names Phase A synthesizes for a mapping list starting at
batch position `i`. -/
def tempsFrom (uuids : Nat → String) : Nat → List (PyPath × PyPath) → List PyPath
  | _, [] => []
  | i, (old, _) :: rest => tempName old (uuids i) :: tempsFrom uuids (i + 1) rest

/-- Does this result record a Phase-A failure?  (Its error message starts
with `"阶段A失败"`.) -/
def isAFail (r : RenameResult) : Bool :=
  match r.error with
  | none => false
  | some s => s.toList.take 5 == "阶段A失败".toList

/-- Does this result record a Phase-B failure?  (Its error message starts
with `"阶段B失败"`.) -/
def isBFail (r : RenameResult) : Bool :=
  match r.error with
  | none => false
  | some s => s.toList.take 5 == "阶段B失败".toList


/-! Basic lemmas about the decimal-rendering helpers. -/

theorem natDigitsAux_irrel (n : Nat) :
    ∀ f₁ f₂ : Nat, n < f₁ → n < f₂ → natDigitsAux f₁ n = natDigitsAux f₂ n := by
  induction n using Nat.strong_induction_on with
  | _ n ih =>
    intro f₁ f₂ h₁ h₂
    cases f₁ with
    | zero => omega
    | succ a =>
      cases f₂ with
      | zero => omega
      | succ b =>
        simp only [natDigitsAux]
        by_cases h : n < 10
        · simp [h]
        · have hdiv : n / 10 < n := Nat.div_lt_self (by omega) (by omega)
          simp only [h, if_false]
          rw [ih (n / 10) hdiv a b (by omega) (by omega)]

theorem natDigitsList_eq (n : Nat) :
    natDigitsList n =
      if n < 10 then [Nat.digitChar n]
      else natDigitsList (n / 10) ++ [Nat.digitChar (n % 10)] := by
  show natDigitsAux (n + 1) n = _
  simp only [natDigitsAux]
  by_cases h : n < 10
  · simp [h]
  · have hdiv : n / 10 < n := Nat.div_lt_self (by omega) (by omega)
    simp only [h, if_false]
    rw [natDigitsAux_irrel (n / 10) n (n / 10 + 1) (by omega) (by omega)]
    rfl

theorem digitCountAux_irrel (n : Nat) :
    ∀ f₁ f₂ : Nat, n < f₁ → n < f₂ → digitCountAux f₁ n = digitCountAux f₂ n := by
  induction n using Nat.strong_induction_on with
  | _ n ih =>
    intro f₁ f₂ h₁ h₂
    cases f₁ with
    | zero => omega
    | succ a =>
      cases f₂ with
      | zero => omega
      | succ b =>
        simp only [digitCountAux]
        by_cases h : n < 10
        · simp [h]
        · have hdiv : n / 10 < n := Nat.div_lt_self (by omega) (by omega)
          simp only [h, if_false]
          rw [ih (n / 10) hdiv a b (by omega) (by omega)]

theorem digitCount_eq (n : Nat) :
    digitCount n = if n < 10 then 1 else digitCount (n / 10) + 1 := by
  show digitCountAux (n + 1) n = _
  simp only [digitCountAux]
  by_cases h : n < 10
  · simp [h]
  · have hdiv : n / 10 < n := Nat.div_lt_self (by omega) (by omega)
    simp only [h, if_false]
    rw [digitCountAux_irrel (n / 10) n (n / 10 + 1) (by omega) (by omega)]
    rfl

theorem natDigitsList_length (n : Nat) : (natDigitsList n).length = digitCount n := by
  induction n using Nat.strong_induction_on with
  | _ n ih =>
    rw [natDigitsList_eq, digitCount_eq]
    by_cases h : n < 10
    · simp [h]
    · have hdiv : n / 10 < n := Nat.div_lt_self (by omega) (by omega)
      simp [h, ih (n / 10) hdiv]

theorem digitCount_pos (n : Nat) : 1 ≤ digitCount n := by
  rw [digitCount_eq]
  by_cases h : n < 10 <;> simp [h]

theorem digitCount_mono : ∀ a b : Nat, a ≤ b → digitCount a ≤ digitCount b := by
  intro a
  induction a using Nat.strong_induction_on with
  | _ a ih =>
    intro b hab
    rw [digitCount_eq a, digitCount_eq b]
    by_cases ha : a < 10
    · by_cases hb : b < 10
      · simp [ha, hb]
      · simp only [ha, if_true, hb, if_false]
        have := digitCount_pos (b / 10)
        omega
    · have hb : ¬ b < 10 := by omega
      have hdiv : a / 10 < a := Nat.div_lt_self (by omega) (by omega)
      simp only [ha, hb, if_false]
      have := ih (a / 10) hdiv (b / 10) (Nat.div_le_div_right hab)
      omega

theorem compute_number_width_eq (n : Nat) :
    compute_number_width n = max 3 (digitCount (max 1 n)) := by
  show max 3 (pyStr (max 1 n)).length = _
  have h : (pyStr (max 1 n)).length = (natDigitsList (max 1 n)).length := rfl
  rw [h, natDigitsList_length]

/-- C8: the zero-padding width computed by the planner equals
`max(3, number_of_digits(max(1, n)))` for every non-negative file count
`n`; in particular it is 3 for `n = 0, 9, 999` and 4 for `n = 1000`. -/
theorem c8_number_width (n : Nat) :
    compute_number_width n = max 3 (digitCount (max 1 n)) ∧
    compute_number_width 0 = 3 ∧ compute_number_width 9 = 3 ∧
    compute_number_width 999 = 3 ∧ compute_number_width 1000 = 4 :=
  ⟨compute_number_width_eq n, by decide, by decide, by decide, by decide⟩

/-- C9: the Name Planner is deterministic and idempotent: two calls with
identical directory, snapshot, ordered file list and prefix return
identical row lists.  (In this embedding the planner is a pure function of
the directory snapshot; it has no filesystem-mutating effect at all.) -/
theorem c9_planner_deterministic (d₁ d₂ : String) (s₁ s₂ : List String)
    (f₁ f₂ : List PyPath) (p₁ p₂ : String)
    (hd : d₁ = d₂) (hs : s₁ = s₂) (hf : f₁ = f₂) (hp : p₁ = p₂) :
    generate_preview_mappings d₁ s₁ f₁ p₁ = generate_preview_mappings d₂ s₂ f₂ p₂ := by
  subst hd hs hf hp
  rfl

theorem c9_planner_deterministic_witness :
    generate_preview_mappings "d" ["a.jpg"] [⟨"d", "a.jpg"⟩] "Trip_" =
      generate_preview_mappings "d" ["a.jpg"] [⟨"d", "a.jpg"⟩] "Trip_" :=
  c9_planner_deterministic "d" "d" ["a.jpg"] ["a.jpg"] [⟨"d", "a.jpg"⟩] [⟨"d", "a.jpg"⟩]
    "Trip_" "Trip_" rfl rfl rfl rfl

/-! Structure of the planner's output. -/

theorem planLoop_length (d : String) (el : List String) (pre : String) (w : Nat) :
    ∀ (l : List PyPath) (idx : Nat) (c : String → Nat),
      (planLoop d el pre w l idx c).length = l.length := by
  intro l
  induction l with
  | nil => intro idx c; rfl
  | cons old rest ih => intro idx c; simp [planLoop, ih]

/-- Status of the `i`-th planned row, characterized against the inputs: the
three checks of the source overwrite one another, so the LAST matching
condition wins (existing-file conflict over duplicate over illegal name).
`seen` is the list of case-folded new names processed before this call and
`c` the matching occurrence counter. -/
theorem planLoop_status (d : String) (el : List String) (pre : String) (w : Nat) :
    ∀ (l : List PyPath) (idx : Nat) (c : String → Nat) (seen : List String),
      (∀ s, c s = seen.count s) →
      ∀ i : Nat, i < l.length →
      ((planLoop d el pre w l idx c).getD i defaultRow).status =
        (if lowerStr ((planLoop d el pre w l idx c).getD i defaultRow).old_path.name ≠
              lowerStr ((planLoop d el pre w l idx c).getD i defaultRow).new_path.name ∧
            lowerStr ((planLoop d el pre w l idx c).getD i defaultRow).new_path.name ∈ el
         then "与现有文件冲突"
         else if lowerStr ((planLoop d el pre w l idx c).getD i defaultRow).new_path.name ∈
              seen ++ ((planLoop d el pre w l idx c).take i).map (fun r => lowerStr r.new_path.name)
         then "新名重复"
         else if hasIllegalChars
              (pyStem ((planLoop d el pre w l idx c).getD i defaultRow).new_path.name)
         then "非法名称"
         else "OK") := by
  intro l
  induction l with
  | nil =>
    intro idx c seen hc i hi
    simp at hi
  | cons old rest ih =>
    intro idx c seen hc i hi
    have hunfold : planLoop d el pre w (old :: rest) idx c =
        ⟨old, ⟨d, plannedName pre w idx (pySuffix old.name)⟩,
          (if lowerStr old.name ≠ lowerStr (plannedName pre w idx (pySuffix old.name)) ∧
              lowerStr (plannedName pre w idx (pySuffix old.name)) ∈ el
           then "与现有文件冲突"
           else if 1 < bumpCounter c (lowerStr (plannedName pre w idx (pySuffix old.name)))
                    (lowerStr (plannedName pre w idx (pySuffix old.name)))
           then "新名重复"
           else if hasIllegalChars (pyStem (plannedName pre w idx (pySuffix old.name)))
           then "非法名称"
           else "OK")⟩ ::
        planLoop d el pre w rest (idx + 1)
          (bumpCounter c (lowerStr (plannedName pre w idx (pySuffix old.name)))) := rfl
    have hbump : bumpCounter c (lowerStr (plannedName pre w idx (pySuffix old.name)))
        (lowerStr (plannedName pre w idx (pySuffix old.name))) =
        c (lowerStr (plannedName pre w idx (pySuffix old.name))) + 1 := by
      simp [bumpCounter]
    cases i with
    | zero =>
      rw [hunfold]
      simp only [List.getD_cons_zero, List.take_zero, List.map_nil, List.append_nil]
      rw [hbump]
      by_cases hA : lowerStr old.name ≠ lowerStr (plannedName pre w idx (pySuffix old.name)) ∧
          lowerStr (plannedName pre w idx (pySuffix old.name)) ∈ el
      · rw [if_pos hA, if_pos hA]
      · rw [if_neg hA, if_neg hA]
        by_cases hB : lowerStr (plannedName pre w idx (pySuffix old.name)) ∈ seen
        · have hcount : 0 < c (lowerStr (plannedName pre w idx (pySuffix old.name))) := by
            rw [hc]
            exact List.count_pos_iff.mpr hB
          rw [if_pos (by omega), if_pos hB]
        · have hcount : c (lowerStr (plannedName pre w idx (pySuffix old.name))) = 0 := by
            rw [hc]
            exact List.count_eq_zero.mpr hB
          rw [if_neg (by omega), if_neg hB]
    | succ j =>
      rw [hunfold]
      have hj : j < rest.length := by
        simpa using hi
      have hc' : ∀ s,
          bumpCounter c (lowerStr (plannedName pre w idx (pySuffix old.name))) s =
            (seen ++ [lowerStr (plannedName pre w idx (pySuffix old.name))]).count s := by
        intro s
        by_cases h : s = lowerStr (plannedName pre w idx (pySuffix old.name))
        · subst h
          simp [bumpCounter, List.count_append, hc, List.count_singleton']
        · simp only [bumpCounter, if_neg h]
          rw [List.count_append, hc s, List.count_singleton']
          rw [if_neg (fun hh => h hh.symm)]
          omega
      have := ih (idx + 1)
        (bumpCounter c (lowerStr (plannedName pre w idx (pySuffix old.name))))
        (seen ++ [lowerStr (plannedName pre w idx (pySuffix old.name))]) hc' j hj
      simp only [List.getD_cons_succ, List.take_succ_cons, List.map_cons]
      rw [List.append_cons seen]
      exact this

/-- Old and new path of the `i`-th planned row: the input file in input
order, and the directory joined with
`prefix + zero_pad(idx + i, width) + extension`. -/
theorem planLoop_row (d : String) (el : List String) (pre : String) (w : Nat) :
    ∀ (l : List PyPath) (idx : Nat) (c : String → Nat) (i : Nat), i < l.length →
      ((planLoop d el pre w l idx c).getD i defaultRow).old_path = l.getD i ⟨"", ""⟩ ∧
      ((planLoop d el pre w l idx c).getD i defaultRow).new_path =
        ⟨d, plannedName pre w (idx + i) (pySuffix (l.getD i ⟨"", ""⟩).name)⟩ := by
  intro l
  induction l with
  | nil => intro idx c i hi; simp at hi
  | cons old rest ih =>
    intro idx c i hi
    cases i with
    | zero => exact ⟨rfl, rfl⟩
    | succ j =>
      have hj : j < rest.length := by simpa using hi
      have := ih (idx + 1) (bumpCounter c (lowerStr (plannedName pre w idx (pySuffix old.name)))) j hj
      have harith : idx + 1 + j = idx + (j + 1) := by omega
      simp only [planLoop, List.getD_cons_succ]
      rw [← harith]
      exact this

/-- C7: a planned row is flagged as conflicting with an existing file
exactly when its case-folded new name occurs in the directory snapshot and
differs (case-insensitively) from the row's own old name; a no-op rename
is never flagged as conflicting with itself. -/
theorem c7_existing_conflict (d : String) (snapshot : List String) (files : List PyPath)
    (pre : String) (i : Nat) (hi : i < files.length) :
    (((generate_preview_mappings d snapshot files pre).getD i defaultRow).status =
        "与现有文件冲突" ↔
      (lowerStr ((generate_preview_mappings d snapshot files pre).getD i defaultRow).old_path.name ≠
          lowerStr ((generate_preview_mappings d snapshot files pre).getD i defaultRow).new_path.name ∧
        lowerStr ((generate_preview_mappings d snapshot files pre).getD i defaultRow).new_path.name ∈
          snapshot.map lowerStr)) := by
  have h := planLoop_status d (snapshot.map lowerStr) pre (compute_number_width files.length)
      files 1 (fun _ => 0) [] (fun s => by simp) i hi
  simp only [generate_preview_mappings]
  constructor
  · intro hs
    rw [hs] at h
    by_cases h1 : lowerStr ((planLoop d (snapshot.map lowerStr) pre
          (compute_number_width files.length) files 1 fun _ => 0).getD i defaultRow).old_path.name ≠
        lowerStr ((planLoop d (snapshot.map lowerStr) pre
          (compute_number_width files.length) files 1 fun _ => 0).getD i defaultRow).new_path.name ∧
        lowerStr ((planLoop d (snapshot.map lowerStr) pre
          (compute_number_width files.length) files 1 fun _ => 0).getD i defaultRow).new_path.name ∈
          snapshot.map lowerStr
    · exact h1
    · rw [if_neg h1] at h
      split_ifs at h with h2 h3
      · exact absurd h (by decide)
      · exact absurd h (by decide)
      · exact absurd h (by decide)
  · intro hcond
    rw [h, if_pos hcond]

theorem c7_existing_conflict_witness :
    ((generate_preview_mappings "d" ["a.jpg", "trip_001.jpg"] [⟨"d", "a.jpg"⟩] "Trip_").getD 0
        defaultRow).status = "与现有文件冲突" :=
  (c7_existing_conflict "d" ["a.jpg", "trip_001.jpg"] [⟨"d", "a.jpg"⟩] "Trip_" 0
    (by decide)).mpr (by decide)

/-- C2 counterexample: a row whose new stem contains a reserved character
(`?`) AND whose new name collides with an existing file is reported as an
existing-file conflict, not as an illegal name — so `IllegalName` does NOT
take precedence as the claim states. -/
theorem c2_counterexample :
    generate_preview_mappings "d" ["b.jpg", "a?001.jpg"] [⟨"d", "b.jpg"⟩] "a?" =
      [⟨⟨"d", "b.jpg"⟩, ⟨"d", "a?001.jpg"⟩, "与现有文件冲突"⟩] ∧
    hasIllegalChars (pyStem "a?001.jpg") = true := by
  decide

/-- C2 amended: the three per-row checks are applied in the sequence
illegal name, duplicate target, existing conflict, each assignment
overwriting the previous one, so the LAST matching condition wins: the
effective precedence is ExistingConflict over DuplicateTarget over
IllegalName, and only when no condition matches is the row `OK`. -/
theorem c2_amended (d : String) (snapshot : List String) (files : List PyPath)
    (pre : String) (i : Nat) (hi : i < files.length) :
    ((generate_preview_mappings d snapshot files pre).getD i defaultRow).status =
      (if lowerStr ((generate_preview_mappings d snapshot files pre).getD i
              defaultRow).old_path.name ≠
            lowerStr ((generate_preview_mappings d snapshot files pre).getD i
              defaultRow).new_path.name ∧
          lowerStr ((generate_preview_mappings d snapshot files pre).getD i
              defaultRow).new_path.name ∈ snapshot.map lowerStr
       then "与现有文件冲突"
       else if lowerStr ((generate_preview_mappings d snapshot files pre).getD i
              defaultRow).new_path.name ∈
            ((generate_preview_mappings d snapshot files pre).take i).map
              (fun r => lowerStr r.new_path.name)
       then "新名重复"
       else if hasIllegalChars
            (pyStem ((generate_preview_mappings d snapshot files pre).getD i
              defaultRow).new_path.name)
       then "非法名称"
       else "OK") := by
  have h := planLoop_status d (snapshot.map lowerStr) pre (compute_number_width files.length)
      files 1 (fun _ => 0) [] (fun s => by simp) i hi
  simpa [generate_preview_mappings] using h

theorem c2_amended_witness :
    ((generate_preview_mappings "d" ["b.jpg", "a?001.jpg"] [⟨"d", "b.jpg"⟩] "a?").getD 0
        defaultRow).status = "与现有文件冲突" := by
  rw [c2_amended "d" ["b.jpg", "a?001.jpg"] [⟨"d", "b.jpg"⟩] "a?" 0 (by decide)]
  decide

/-! Character-level facts about decimal digit strings. -/

theorem str_toList_append (a b : String) : (a ++ b).toList = a.toList ++ b.toList := by
  cases a
  cases b
  rfl

theorem natDigitsList_ne_nil (n : Nat) : natDigitsList n ≠ [] := by
  rw [natDigitsList_eq]
  by_cases h : n < 10 <;> simp [h]

theorem natDigits_chars (n : Nat) : ∀ c ∈ natDigitsList n, ∃ d, d < 10 ∧ c = Nat.digitChar d := by
  induction n using Nat.strong_induction_on with
  | _ n ih =>
    intro c hc
    rw [natDigitsList_eq] at hc
    by_cases h : n < 10
    · rw [if_pos h] at hc
      simp at hc
      exact ⟨n, h, hc⟩
    · rw [if_neg h] at hc
      rcases List.mem_append.mp hc with h1 | h2
      · exact ih (n / 10) (Nat.div_lt_self (by omega) (by omega)) c h1
      · simp at h2
        exact ⟨n % 10, Nat.mod_lt n (by omega), h2⟩

theorem digitChar_not_illegal : ∀ d, d < 10 → ILLEGAL_CHARS.contains (Nat.digitChar d) = false := by
  decide

theorem digitChar_toLower : ∀ d, d < 10 → Char.toLower (Nat.digitChar d) = Nat.digitChar d := by
  decide

theorem digitChar_inj : ∀ x, x < 10 → ∀ y, y < 10 → Nat.digitChar x = Nat.digitChar y → x = y := by
  decide

theorem digitChar_ne_zero_char : ∀ n, n < 10 → n ≠ 0 → Nat.digitChar n ≠ '0' := by
  decide

theorem natDigits_head (n : Nat) :
    n ≠ 0 → ∀ ch, (natDigitsList n).head? = some ch → ch ≠ '0' := by
  induction n using Nat.strong_induction_on with
  | _ n ih =>
    intro hn ch hch
    rw [natDigitsList_eq] at hch
    by_cases h : n < 10
    · rw [if_pos h] at hch
      simp at hch
      rw [← hch]
      exact digitChar_ne_zero_char n h hn
    · rw [if_neg h] at hch
      cases hl : natDigitsList (n / 10) with
      | nil => exact absurd hl (natDigitsList_ne_nil (n / 10))
      | cons a t =>
        rw [hl] at hch
        simp at hch
        rw [← hch]
        exact ih (n / 10) (Nat.div_lt_self (by omega) (by omega)) (by omega) a (by rw [hl]; rfl)

theorem natDigitsList_inj : ∀ a b : Nat, natDigitsList a = natDigitsList b → a = b := by
  intro a
  induction a using Nat.strong_induction_on with
  | _ a ih =>
    intro b h
    rw [natDigitsList_eq a, natDigitsList_eq b] at h
    by_cases ha : a < 10
    · by_cases hb : b < 10
      · rw [if_pos ha, if_pos hb] at h
        simp at h
        exact digitChar_inj a ha b hb h
      · rw [if_pos ha, if_neg hb] at h
        have hpos : 0 < (natDigitsList (b / 10)).length :=
          List.length_pos.mpr (natDigitsList_ne_nil (b / 10))
        have hlen := congrArg List.length h
        simp only [List.length_append, List.length_cons, List.length_nil] at hlen
        omega
    · by_cases hb : b < 10
      · rw [if_neg ha, if_pos hb] at h
        have hpos : 0 < (natDigitsList (a / 10)).length :=
          List.length_pos.mpr (natDigitsList_ne_nil (a / 10))
        have hlen := congrArg List.length h
        simp only [List.length_append, List.length_cons, List.length_nil] at hlen
        omega
      · rw [if_neg ha, if_neg hb] at h
        have h2 := List.append_inj' h (by simp)
        have hdiv : a / 10 = b / 10 :=
          ih (a / 10) (Nat.div_lt_self (by omega) (by omega)) (b / 10) h2.1
        have hmod : a % 10 = b % 10 := by
          have h3 := h2.2
          simp at h3
          exact digitChar_inj _ (Nat.mod_lt a (by omega)) _ (Nat.mod_lt b (by omega)) h3
        omega

/-- Leading-zero padding is injective on positive numbers whose digit
strings fit in the width. -/
theorem padded_digits_inj :
    ∀ (pa pb : Nat) (dsa dsb : List Char),
      (∀ c, dsa.head? = some c → c ≠ '0') → (∀ c, dsb.head? = some c → c ≠ '0') →
      List.replicate pa '0' ++ dsa = List.replicate pb '0' ++ dsb → dsa = dsb := by
  intro pa
  induction pa with
  | zero =>
    intro pb dsa dsb ha hb h
    cases pb with
    | zero => simpa using h
    | succ q =>
      simp only [List.replicate_zero, List.nil_append, List.replicate_succ,
        List.cons_append] at h
      have hh : dsa.head? = some '0' := by rw [h]; rfl
      exact absurd rfl (ha '0' hh)
  | succ p ihp =>
    intro pb dsa dsb ha hb h
    cases pb with
    | zero =>
      simp only [List.replicate_zero, List.nil_append, List.replicate_succ,
        List.cons_append] at h
      have hh : dsb.head? = some '0' := by rw [← h]; rfl
      exact absurd rfl (hb '0' hh)
    | succ q =>
      simp only [List.replicate_succ, List.cons_append, List.cons.injEq, true_and] at h
      exact ihp q dsa dsb ha hb h

theorem pyStr_length (n : Nat) : (pyStr n).length = digitCount n :=
  natDigitsList_length n

theorem zfill_toList (s : String) (w : Nat) :
    (zfill s w).toList = List.replicate (w - s.length) '0' ++ s.toList := rfl

theorem zfill_pyStr_length (n w : Nat) (h : digitCount n ≤ w) :
    (zfill (pyStr n) w).toList.length = w := by
  rw [zfill_toList]
  simp only [List.length_append, List.length_replicate]
  have h2 : (pyStr n).length = digitCount n := pyStr_length n
  have h3 : (pyStr n).toList.length = (pyStr n).length := rfl
  omega

theorem zfill_pyStr_toLower (n w : Nat) :
    (zfill (pyStr n) w).toList.map Char.toLower = (zfill (pyStr n) w).toList := by
  rw [zfill_toList]
  rw [List.map_append, List.map_replicate]
  have h0 : Char.toLower '0' = '0' := by decide
  rw [h0]
  congr 1
  have : ∀ c ∈ (pyStr n).toList, Char.toLower c = c := by
    intro c hc
    obtain ⟨d, hd, rfl⟩ := natDigits_chars n c hc
    exact digitChar_toLower d hd
  calc (pyStr n).toList.map Char.toLower = (pyStr n).toList.map id := List.map_congr_left this
    _ = (pyStr n).toList := List.map_id _

theorem zfill_chars_legal (n w : Nat) :
    ∀ c ∈ (zfill (pyStr n) w).toList, ILLEGAL_CHARS.contains c = false := by
  intro c hc
  rw [zfill_toList] at hc
  rcases List.mem_append.mp hc with h1 | h2
  · have : c = '0' := List.eq_of_mem_replicate h1
    subst this
    decide
  · obtain ⟨d, hd, rfl⟩ := natDigits_chars n c h2
    exact digitChar_not_illegal d hd

theorem zfill_pyStr_inj (a b w : Nat) (ha : 1 ≤ a) (hb : 1 ≤ b)
    (h : (zfill (pyStr a) w).toList = (zfill (pyStr b) w).toList) : a = b := by
  rw [zfill_toList, zfill_toList] at h
  have hha : ∀ c, (natDigitsList a).head? = some c → c ≠ '0' :=
    natDigits_head a (by omega)
  have hhb : ∀ c, (natDigitsList b).head? = some c → c ≠ '0' :=
    natDigits_head b (by omega)
  exact natDigitsList_inj a b (padded_digits_inj _ _ _ _ hha hhb h)

/-! Facts about the `pathlib` stem/suffix split. -/

theorem lastDotIdx_none_iff : ∀ cs : List Char, lastDotIdx cs = none ↔ '.' ∉ cs := by
  intro cs
  induction cs with
  | nil => simp [lastDotIdx]
  | cons c rest ih =>
    simp only [lastDotIdx]
    cases h : lastDotIdx rest with
    | some i =>
      simp only [h]
      constructor
      · intro hh; exact absurd hh (by simp)
      · intro hh
        have : '.' ∈ rest := by
          by_contra hmem
          rw [← ih] at hmem
          rw [hmem] at h
          exact absurd h (by simp)
        simp at hh
        exact absurd this hh.2
    | none =>
      simp only [h]
      by_cases hc : c = '.'
      · subst hc
        simp
      · simp only [if_neg hc]
        rw [h] at ih
        simp only [List.mem_cons, not_or]
        constructor
        · intro _
          exact ⟨fun hh => hc hh.symm, ih.mp rfl⟩
        · intro _
          trivial

theorem lastDotIdx_getD : ∀ (cs : List Char) (i : Nat),
    lastDotIdx cs = some i → cs.getD i 'x' = '.' := by
  intro cs
  induction cs with
  | nil => intro i h; simp [lastDotIdx] at h
  | cons c rest ih =>
    intro i h
    simp only [lastDotIdx] at h
    cases hr : lastDotIdx rest with
    | some k =>
      rw [hr] at h
      simp at h
      subst h
      exact ih k hr
    | none =>
      rw [hr] at h
      by_cases hc : c = '.'
      · rw [if_pos hc] at h
        simp at h
        subst h
        simpa using hc
      · rw [if_neg hc] at h
        exact absurd h (by simp)

theorem lastDotIdx_after : ∀ (cs : List Char) (i : Nat),
    lastDotIdx cs = some i → ∀ j, i < j → cs.getD j 'x' ≠ '.' := by
  intro cs
  induction cs with
  | nil => intro i h; simp [lastDotIdx] at h
  | cons c rest ih =>
    intro i h j hj
    simp only [lastDotIdx] at h
    cases hr : lastDotIdx rest with
    | some k =>
      rw [hr] at h
      simp at h
      subst h
      cases j with
      | zero => omega
      | succ j => exact ih k hr j (by omega)
    | none =>
      rw [hr] at h
      by_cases hc : c = '.'
      · rw [if_pos hc] at h
        simp at h
        subst h
        cases j with
        | zero => omega
        | succ j =>
          have hnd : '.' ∉ rest := (lastDotIdx_none_iff rest).mp hr
          simp only [List.getD_cons_succ]
          by_cases hlt : j < rest.length
          · intro heq
            have hmem : rest.getD j 'x' ∈ rest := by
              rw [List.getD_eq_getElem _ _ hlt]
              exact List.getElem_mem _
            rw [heq] at hmem
            exact hnd hmem
          · rw [List.getD_eq_default _ _ (by omega)]
            decide
      · rw [if_neg hc] at h
        exact absurd h (by simp)

/-- `stem + suffix` always reassembles the filename. -/
theorem pySplit_append (cs : List Char) : (pySplit cs).1 ++ (pySplit cs).2 = cs := by
  unfold pySplit
  cases h : lastDotIdx cs with
  | none => simp
  | some i =>
    by_cases hcond : 0 < i ∧ i + 1 < cs.length
    · simp [hcond, List.take_append_drop]
    · simp [hcond]

theorem pyStem_append_pySuffix (s : String) : pyStem s ++ pySuffix s = s := by
  cases s with
  | mk data =>
    have h : (pySplit data).1 ++ (pySplit data).2 = data := pySplit_append data
    show String.mk ((pySplit data).1 ++ (pySplit data).2) = String.mk data
    rw [h]

/-- Reduction of `pySplit` in the in-range case. -/
theorem pySplit_eq_of_cond (cs : List Char) (i : Nat) (h : lastDotIdx cs = some i)
    (hcond : 0 < i ∧ i + 1 < cs.length) :
    pySplit cs = (cs.take i, cs.drop i) := by
  simp only [pySplit, h]
  rw [if_pos hcond]

/-- Reduction of `pySplit` when the dot position is out of range. -/
theorem pySplit_eq_of_not_cond (cs : List Char) (i : Nat) (h : lastDotIdx cs = some i)
    (hcond : ¬(0 < i ∧ i + 1 < cs.length)) :
    pySplit cs = (cs, []) := by
  simp only [pySplit, h]
  rw [if_neg hcond]

/-- Reduction of `pySplit` when there is no dot. -/
theorem pySplit_eq_of_none (cs : List Char) (h : lastDotIdx cs = none) :
    pySplit cs = (cs, []) := by
  simp only [pySplit, h]

/-- A non-empty `pathlib` suffix is a dot followed by a non-empty,
dot-free tail. -/
theorem pySuffix_shape (s : String) :
    (pySuffix s).toList = [] ∨
      ∃ rest, (pySuffix s).toList = '.' :: rest ∧ '.' ∉ rest ∧ rest ≠ [] := by
  have hsfx : (pySuffix s).toList = (pySplit s.toList).2 := rfl
  rw [hsfx]
  cases h : lastDotIdx s.toList with
  | none =>
    left
    rw [pySplit_eq_of_none s.toList h]
  | some i =>
    by_cases hcond : 0 < i ∧ i + 1 < s.toList.length
    · right
      rw [pySplit_eq_of_cond s.toList i h hcond]
      have hi : i < s.toList.length := by omega
      have hdot : s.toList[i] = '.' := by
        have hgd := lastDotIdx_getD s.toList i h
        rwa [List.getD_eq_getElem _ _ hi] at hgd
      refine ⟨s.toList.drop (i + 1), ?_, ?_, ?_⟩
      · show s.toList.drop i = _
        rw [List.drop_eq_getElem_cons hi, hdot]
      · intro hmem
        obtain ⟨k, hk, hck⟩ := List.mem_iff_getElem.mp hmem
        have hk2 : i + 1 + k < s.toList.length := by
          have := List.length_drop (i + 1) s.toList
          omega
        rw [List.getElem_drop] at hck
        have hafter := lastDotIdx_after s.toList i h (i + 1 + k) (by omega)
        rw [List.getD_eq_getElem _ _ hk2] at hafter
        exact hafter hck
      · have hld := List.length_drop (i + 1) s.toList
        intro hnil
        rw [hnil] at hld
        simp only [List.length_nil] at hld
        omega
    · left
      rw [pySplit_eq_of_not_cond s.toList i h hcond]

/-- With a dot-free tail after the dot, the last dot of `xs ++ '.' :: rest`
sits exactly at position `xs.length`. -/
theorem lastDotIdx_append_dot (rest : List Char) (hdot : '.' ∉ rest) :
    ∀ xs : List Char, lastDotIdx (xs ++ '.' :: rest) = some xs.length := by
  intro xs
  induction xs with
  | nil =>
    simp only [List.nil_append, lastDotIdx]
    rw [(lastDotIdx_none_iff rest).mpr hdot]
    simp
  | cons c xs ih =>
    simp only [List.cons_append, lastDotIdx, List.append_eq]
    rw [ih]
    simp

/-- The stem of `xs ++ '.' :: rest` (non-empty `xs`, non-empty dot-free
`rest`) is exactly `xs`. -/
theorem pyStem_of_ext (xs rest : List Char) (hxs : xs ≠ []) (hdot : '.' ∉ rest)
    (hrest : rest ≠ []) :
    (pyStem (String.mk (xs ++ '.' :: rest))).toList = xs := by
  have hstem : (pyStem (String.mk (xs ++ '.' :: rest))).toList =
      (pySplit (xs ++ '.' :: rest)).1 := rfl
  rw [hstem]
  have hlen : 0 < xs.length := List.length_pos.mpr hxs
  have hrlen : 0 < rest.length := List.length_pos.mpr hrest
  have hcond : 0 < xs.length ∧ xs.length + 1 < (xs ++ '.' :: rest).length := by
    simp only [List.length_append, List.length_cons]
    omega
  rw [pySplit_eq_of_cond _ _ (lastDotIdx_append_dot rest hdot xs) hcond]
  exact List.take_left xs ('.' :: rest)

/-- Every character of the stem occurs in the filename. -/
theorem pyStem_chars_subset (s : String) :
    ∀ c ∈ (pyStem s).toList, c ∈ s.toList := by
  intro c hc
  have hstem : (pyStem s).toList = (pySplit s.toList).1 := rfl
  rw [hstem] at hc
  cases h : lastDotIdx s.toList with
  | none =>
    rw [pySplit_eq_of_none s.toList h] at hc
    exact hc
  | some i =>
    by_cases hcond : 0 < i ∧ i + 1 < s.toList.length
    · rw [pySplit_eq_of_cond s.toList i h hcond] at hc
      exact List.mem_of_mem_take hc
    · rw [pySplit_eq_of_not_cond s.toList i h hcond] at hc
      exact hc

/-! Facts about the planned target names. -/

theorem str_toList_inj (a b : String) (h : a.toList = b.toList) : a = b := by
  cases a
  cases b
  exact congrArg String.mk h

theorem plannedName_toList (pre : String) (w idx : Nat) (ext : String) :
    (plannedName pre w idx ext).toList =
      (pre.toList ++ (zfill (pyStr idx) w).toList) ++ ext.toList := by
  show ((pre ++ zfill (pyStr idx) w) ++ ext).toList = _
  rw [str_toList_append, str_toList_append]

theorem zfill_pyStr_ne_nil (n w : Nat) : (zfill (pyStr n) w).toList ≠ [] := by
  rw [zfill_toList]
  intro h
  have h2 := congrArg List.length h
  simp only [List.length_append, List.length_replicate, List.length_nil] at h2
  have h3 : 0 < (natDigitsList n).length :=
    List.length_pos.mpr (natDigitsList_ne_nil n)
  have h4 : (pyStr n).toList = natDigitsList n := rfl
  rw [h4] at h2
  omega

theorem hasIllegalChars_eq_false (s : String)
    (h : ∀ c ∈ s.toList, ILLEGAL_CHARS.contains c = false) :
    hasIllegalChars s = false := by
  show s.toList.any (fun c => ILLEGAL_CHARS.contains c) = false
  rw [List.any_eq_false]
  intro c hc
  rw [h c hc]
  simp

/-- With a reserved-character-free prefix, the stem of every planned name
is free of reserved characters (the stem consists of prefix plus digits:
the extension's characters only ever land in the suffix). -/
theorem plannedName_stem_legal (pre : String) (w idx : Nat) (nm : String)
    (hpre : ∀ c ∈ pre.toList, ILLEGAL_CHARS.contains c = false) :
    hasIllegalChars (pyStem (plannedName pre w idx (pySuffix nm))) = false := by
  have hlegal : ∀ c ∈ pre.toList ++ (zfill (pyStr idx) w).toList,
      ILLEGAL_CHARS.contains c = false := by
    intro c hc
    rcases List.mem_append.mp hc with h1 | h2
    · exact hpre c h1
    · exact zfill_chars_legal idx w c h2
  cases pySuffix_shape nm with
  | inl hnil =>
    apply hasIllegalChars_eq_false
    intro c hc
    have hc2 := pyStem_chars_subset (plannedName pre w idx (pySuffix nm)) c hc
    rw [plannedName_toList, hnil, List.append_nil] at hc2
    exact hlegal c hc2
  | inr hsh =>
    obtain ⟨rest, hsfx, hdot, hne⟩ := hsh
    have heq : plannedName pre w idx (pySuffix nm) =
        String.mk ((pre.toList ++ (zfill (pyStr idx) w).toList) ++ '.' :: rest) := by
      apply str_toList_inj
      rw [plannedName_toList, hsfx]
      have hmk : (String.mk ((pre.toList ++ (zfill (pyStr idx) w).toList) ++ '.' :: rest)).toList
          = (pre.toList ++ (zfill (pyStr idx) w).toList) ++ '.' :: rest := rfl
      rw [hmk]
    rw [heq]
    apply hasIllegalChars_eq_false
    intro c hc
    have hxs : pre.toList ++ (zfill (pyStr idx) w).toList ≠ [] := by
      intro hcontra
      exact zfill_pyStr_ne_nil idx w (List.append_eq_nil.mp hcontra).2
    rw [pyStem_of_ext _ rest hxs hdot hne] at hc
    exact hlegal c hc

/-- Distinct (positive, width-fitting) indices give case-foldedly distinct
planned names, whatever the extensions. -/
theorem plannedName_lower_ne (pre : String) (w a b : Nat) (extA extB : String)
    (ha : 1 ≤ a) (hb : 1 ≤ b) (hwa : digitCount a ≤ w) (hwb : digitCount b ≤ w)
    (hne : a ≠ b) :
    lowerStr (plannedName pre w a extA) ≠ lowerStr (plannedName pre w b extB) := by
  intro h
  apply hne
  have h2 : (plannedName pre w a extA).toList.map Char.toLower =
      (plannedName pre w b extB).toList.map Char.toLower := by
    have h3 := congrArg String.toList h
    exact h3
  rw [plannedName_toList, plannedName_toList] at h2
  rw [List.map_append, List.map_append, List.map_append, List.map_append] at h2
  rw [List.append_assoc, List.append_assoc] at h2
  have h4 := (List.append_inj h2 (by simp)).2
  have h5 := (List.append_inj h4 (by
    rw [List.length_map, List.length_map, zfill_pyStr_length a w hwa,
      zfill_pyStr_length b w hwb])).1
  rw [zfill_pyStr_toLower, zfill_pyStr_toLower] at h5
  exact zfill_pyStr_inj a b w ha hb h5

theorem okRows_length (d : String) (pre : String) (w : Nat) :
    ∀ (l : List PyPath) (idx : Nat), (okRows d pre w l idx).length = l.length := by
  intro l
  induction l with
  | nil => intro idx; rfl
  | cons old rest ih => intro idx; simp [okRows, ih]

theorem okRows_getD (d : String) (pre : String) (w : Nat) :
    ∀ (l : List PyPath) (idx i : Nat), i < l.length →
      (okRows d pre w l idx).getD i defaultRow =
        ⟨l.getD i ⟨"", ""⟩,
         ⟨d, plannedName pre w (idx + i) (pySuffix (l.getD i ⟨"", ""⟩).name)⟩, "OK"⟩ := by
  intro l
  induction l with
  | nil => intro idx i hi; simp at hi
  | cons old rest ih =>
    intro idx i hi
    cases i with
    | zero => rfl
    | succ j =>
      have hj : j < rest.length := by simpa using hi
      have harith : idx + 1 + j = idx + (j + 1) := by omega
      simp only [okRows, List.getD_cons_succ]
      rw [← harith]
      exact ih (idx + 1) j hj

/-- When no row triggers any of the three checks, the planner returns the
all-OK rows. -/
theorem planLoop_all_ok (d : String) (el : List String) (pre : String) (w : Nat) :
    ∀ (l : List PyPath) (idx : Nat) (c : String → Nat),
      (∀ i, i < l.length →
        c (lowerStr (plannedName pre w (idx + i) (pySuffix (l.getD i ⟨"", ""⟩).name))) = 0) →
      (∀ i j, i < l.length → j < l.length → i ≠ j →
        lowerStr (plannedName pre w (idx + i) (pySuffix (l.getD i ⟨"", ""⟩).name)) ≠
          lowerStr (plannedName pre w (idx + j) (pySuffix (l.getD j ⟨"", ""⟩).name))) →
      (∀ i, i < l.length →
        ¬(lowerStr (l.getD i ⟨"", ""⟩).name ≠
            lowerStr (plannedName pre w (idx + i) (pySuffix (l.getD i ⟨"", ""⟩).name)) ∧
          lowerStr (plannedName pre w (idx + i) (pySuffix (l.getD i ⟨"", ""⟩).name)) ∈ el)) →
      (∀ i, i < l.length →
        hasIllegalChars
          (pyStem (plannedName pre w (idx + i) (pySuffix (l.getD i ⟨"", ""⟩).name))) = false) →
      planLoop d el pre w l idx c = okRows d pre w l idx := by
  intro l
  induction l with
  | nil => intro idx c _ _ _ _; rfl
  | cons old rest ih =>
    intro idx c hfresh hdist hconf hillegal
    have h0 : (old :: rest).getD 0 ⟨"", ""⟩ = old := rfl
    have hlen0 : 0 < (old :: rest).length := by simp
    have hunfold : planLoop d el pre w (old :: rest) idx c =
        ⟨old, ⟨d, plannedName pre w idx (pySuffix old.name)⟩,
          (if lowerStr old.name ≠ lowerStr (plannedName pre w idx (pySuffix old.name)) ∧
              lowerStr (plannedName pre w idx (pySuffix old.name)) ∈ el
           then "与现有文件冲突"
           else if 1 < bumpCounter c (lowerStr (plannedName pre w idx (pySuffix old.name)))
                    (lowerStr (plannedName pre w idx (pySuffix old.name)))
           then "新名重复"
           else if hasIllegalChars (pyStem (plannedName pre w idx (pySuffix old.name)))
           then "非法名称"
           else "OK")⟩ ::
        planLoop d el pre w rest (idx + 1)
          (bumpCounter c (lowerStr (plannedName pre w idx (pySuffix old.name)))) := rfl
    rw [hunfold]
    have hconf0 := hconf 0 hlen0
    rw [h0, Nat.add_zero] at hconf0
    have hfresh0 := hfresh 0 hlen0
    rw [h0, Nat.add_zero] at hfresh0
    have hillegal0 := hillegal 0 hlen0
    rw [h0, Nat.add_zero] at hillegal0
    have hbump : bumpCounter c (lowerStr (plannedName pre w idx (pySuffix old.name)))
        (lowerStr (plannedName pre w idx (pySuffix old.name))) =
        c (lowerStr (plannedName pre w idx (pySuffix old.name))) + 1 := by
      simp [bumpCounter]
    have hstatus :
        (if lowerStr old.name ≠ lowerStr (plannedName pre w idx (pySuffix old.name)) ∧
            lowerStr (plannedName pre w idx (pySuffix old.name)) ∈ el
         then "与现有文件冲突"
         else if 1 < bumpCounter c (lowerStr (plannedName pre w idx (pySuffix old.name)))
                  (lowerStr (plannedName pre w idx (pySuffix old.name)))
         then "新名重复"
         else if hasIllegalChars (pyStem (plannedName pre w idx (pySuffix old.name)))
         then "非法名称"
         else "OK") = "OK" := by
      rw [if_neg hconf0, hbump, hfresh0, if_neg (by omega), hillegal0]
      simp
    rw [hstatus]
    show _ = okRows d pre w (old :: rest) idx
    have hok : okRows d pre w (old :: rest) idx =
        ⟨old, ⟨d, plannedName pre w idx (pySuffix old.name)⟩, "OK"⟩ ::
          okRows d pre w rest (idx + 1) := rfl
    rw [hok]
    congr 1
    apply ih (idx + 1) (bumpCounter c (lowerStr (plannedName pre w idx (pySuffix old.name))))
    · intro i hi
      have hgd : rest.getD i ⟨"", ""⟩ = (old :: rest).getD (i + 1) ⟨"", ""⟩ := rfl
      have harith : idx + 1 + i = idx + (i + 1) := by omega
      rw [hgd, harith]
      have hne := hdist 0 (i + 1) hlen0 (by simpa using hi) (by omega)
      rw [h0, Nat.add_zero] at hne
      have hfr := hfresh (i + 1) (by simpa using hi)
      show bumpCounter c _ _ = 0
      rw [bumpCounter]
      rw [if_neg (fun hh => hne hh.symm)]
      exact hfr
    · intro i j hi hj hij
      have harith1 : idx + 1 + i = idx + (i + 1) := by omega
      have harith2 : idx + 1 + j = idx + (j + 1) := by omega
      have hgd1 : rest.getD i ⟨"", ""⟩ = (old :: rest).getD (i + 1) ⟨"", ""⟩ := rfl
      have hgd2 : rest.getD j ⟨"", ""⟩ = (old :: rest).getD (j + 1) ⟨"", ""⟩ := rfl
      rw [hgd1, hgd2, harith1, harith2]
      exact hdist (i + 1) (j + 1) (by simpa using hi) (by simpa using hj) (by omega)
    · intro i hi
      have harith : idx + 1 + i = idx + (i + 1) := by omega
      have hgd : rest.getD i ⟨"", ""⟩ = (old :: rest).getD (i + 1) ⟨"", ""⟩ := rfl
      rw [hgd, harith]
      exact hconf (i + 1) (by simpa using hi)
    · intro i hi
      have harith : idx + 1 + i = idx + (i + 1) := by omega
      have hgd : rest.getD i ⟨"", ""⟩ = (old :: rest).getD (i + 1) ⟨"", ""⟩ := rfl
      rw [hgd, harith]
      exact hillegal (i + 1) (by simpa using hi)

/-- C6 counterexample: with prefix `"?"` (a reserved character) and no
pre-existing conflicting file, the single planned row has status
`"非法名称"` (IllegalName), not `"OK"`, so a batch with an illegal prefix
refutes the unconditioned claim. -/
theorem c6_counterexample :
    generate_preview_mappings "d" ["a.jpg"] [⟨"d", "a.jpg"⟩] "?" =
      [⟨⟨"d", "a.jpg"⟩, ⟨"d", "?001.jpg"⟩, "非法名称"⟩] := by
  decide

/-- C6 amended: for a batch of `n` files whose prefix contains no reserved
character and with no pre-existing conflicting file in the snapshot,
planning yields exactly `n` rows in input order, all `OK`, the `i`-th new
name being `prefix + zero_pad(i+1, width) + extension-verbatim`. -/
theorem c6_batch_ok (d : String) (snapshot : List String) (files : List PyPath) (pre : String)
    (hpre : ∀ ch ∈ pre.toList, ILLEGAL_CHARS.contains ch = false)
    (hconf : ∀ i, i < files.length →
      lowerStr (plannedName pre (compute_number_width files.length) (1 + i)
          (pySuffix (files.getD i ⟨"", ""⟩).name)) ∈ snapshot.map lowerStr →
      lowerStr (files.getD i ⟨"", ""⟩).name =
        lowerStr (plannedName pre (compute_number_width files.length) (1 + i)
          (pySuffix (files.getD i ⟨"", ""⟩).name))) :
    (generate_preview_mappings d snapshot files pre).length = files.length ∧
    ∀ i, i < files.length →
      (generate_preview_mappings d snapshot files pre).getD i defaultRow =
        ⟨files.getD i ⟨"", ""⟩,
         ⟨d, plannedName pre (compute_number_width files.length) (1 + i)
            (pySuffix (files.getD i ⟨"", ""⟩).name)⟩, "OK"⟩ := by
  have hw : digitCount files.length ≤ compute_number_width files.length := by
    rw [compute_number_width_eq]
    rcases Nat.eq_zero_or_pos files.length with h0 | hp
    · rw [h0]
      have h1 : digitCount 0 = 1 := by decide
      rw [h1]
      have h2 : 3 ≤ max 3 (digitCount (max 1 0)) := le_max_left _ _
      omega
    · have hmx : max 1 files.length = files.length := by omega
      rw [hmx]
      exact le_max_right _ _
  have hmain := planLoop_all_ok d (snapshot.map lowerStr) pre
    (compute_number_width files.length) files 1 (fun _ => 0)
    (fun i _ => rfl)
    (fun i j hi hj hij =>
      plannedName_lower_ne pre (compute_number_width files.length) (1 + i) (1 + j) _ _
        (by omega) (by omega)
        (le_trans (digitCount_mono (1 + i) files.length (by omega)) hw)
        (le_trans (digitCount_mono (1 + j) files.length (by omega)) hw) (by omega))
    (fun i hi hand => hand.1 (hconf i hi hand.2))
    (fun i _ => plannedName_stem_legal pre (compute_number_width files.length) (1 + i) _ hpre)
  constructor
  · simp only [generate_preview_mappings]
    rw [hmain, okRows_length]
  · intro i hi
    simp only [generate_preview_mappings]
    rw [hmain, okRows_getD d pre (compute_number_width files.length) files 1 i hi]

theorem c6_batch_ok_witness :
    (generate_preview_mappings "d" ["a.jpg", "b.png", "c.jpeg"]
        [⟨"d", "a.jpg"⟩, ⟨"d", "b.png"⟩, ⟨"d", "c.jpeg"⟩] "Trip_").length = 3 ∧
    (generate_preview_mappings "d" ["a.jpg", "b.png", "c.jpeg"]
        [⟨"d", "a.jpg"⟩, ⟨"d", "b.png"⟩, ⟨"d", "c.jpeg"⟩] "Trip_").getD 0 defaultRow =
      ⟨⟨"d", "a.jpg"⟩, ⟨"d", "Trip_001.jpg"⟩, "OK"⟩ ∧
    (generate_preview_mappings "d" ["a.jpg", "b.png", "c.jpeg"]
        [⟨"d", "a.jpg"⟩, ⟨"d", "b.png"⟩, ⟨"d", "c.jpeg"⟩] "Trip_").getD 1 defaultRow =
      ⟨⟨"d", "b.png"⟩, ⟨"d", "Trip_002.png"⟩, "OK"⟩ ∧
    (generate_preview_mappings "d" ["a.jpg", "b.png", "c.jpeg"]
        [⟨"d", "a.jpg"⟩, ⟨"d", "b.png"⟩, ⟨"d", "c.jpeg"⟩] "Trip_").getD 2 defaultRow =
      ⟨⟨"d", "c.jpeg"⟩, ⟨"d", "Trip_003.jpeg"⟩, "OK"⟩ := by
  have h := c6_batch_ok "d" ["a.jpg", "b.png", "c.jpeg"]
      [⟨"d", "a.jpg"⟩, ⟨"d", "b.png"⟩, ⟨"d", "c.jpeg"⟩] "Trip_"
      (by decide) (by decide)
  refine ⟨h.1, ?_, ?_, ?_⟩
  · rw [h.2 0 (by decide)]
    decide
  · rw [h.2 1 (by decide)]
    decide
  · rw [h.2 2 (by decide)]
    decide

/-! The retrying rename primitive. -/

/-- One-step unfolding of the retry loop. -/
theorem retryLoopGo_succ (env : Nat → Option PyError) (src dst : PyPath)
    (remaining attempt : Nat) (fs : List PyPath) (clock : Nat) :
    retryLoopGo env src dst (remaining + 1) attempt fs clock =
      (match env clock with
       | none => ⟨none, fsRename fs src dst, clock + 1, []⟩
       | some e =>
         if 0 < remaining ∧ transient e then
           ⟨(retryLoopGo env src dst remaining (attempt + 1) fs (clock + 1)).err,
            (retryLoopGo env src dst remaining (attempt + 1) fs (clock + 1)).fs,
            (retryLoopGo env src dst remaining (attempt + 1) fs (clock + 1)).clock,
            (50 * 2 ^ attempt) ::
              (retryLoopGo env src dst remaining (attempt + 1) fs (clock + 1)).sleeps⟩
         else ⟨some e, fs, clock + 1, []⟩) := rfl

/-- Under persistently transient errors the retry loop uses every attempt,
sleeping `50 * 2 ^ attempt` ms after each but the last, and surfaces the
last error with the filesystem untouched. -/
theorem retryLoopGo_transient (env : Nat → Option PyError) (src dst : PyPath)
    (errs : Nat → PyError) :
    ∀ (remaining attempt : Nat) (fs : List PyPath) (clock : Nat),
      0 < remaining →
      (∀ k, k < remaining → env (clock + k) = some (errs (attempt + k)) ∧
        transient (errs (attempt + k)) = true) →
      retryLoopGo env src dst remaining attempt fs clock =
        ⟨some (errs (attempt + remaining - 1)), fs, clock + remaining,
         (List.range (remaining - 1)).map (fun j => 50 * 2 ^ (attempt + j))⟩ := by
  intro remaining
  induction remaining with
  | zero => intro attempt fs clock h; omega
  | succ r ih =>
    intro attempt fs clock _ hk
    have he : env clock = some (errs attempt) := by
      have h := (hk 0 (by omega)).1
      simpa using h
    have ht : transient (errs attempt) = true := by
      have h := (hk 0 (by omega)).2
      simpa using h
    rw [retryLoopGo_succ, he]
    by_cases hr : 0 < r
    · have hked : ∀ k, k < r → env (clock + 1 + k) = some (errs (attempt + 1 + k)) ∧
          transient (errs (attempt + 1 + k)) = true := by
        intro k hk2
        have h := hk (k + 1) (by omega)
        have e1 : clock + (k + 1) = clock + 1 + k := by omega
        have e2 : attempt + (k + 1) = attempt + 1 + k := by omega
        rw [e1, e2] at h
        exact h
      simp only []
      rw [if_pos ⟨hr, ht⟩]
      rw [ih (attempt + 1) fs (clock + 1) hr hked]
      simp only [RetryOutcome.mk.injEq]
      refine ⟨?_, trivial, by omega, ?_⟩
      · have e3 : attempt + 1 + r - 1 = attempt + (r + 1) - 1 := by omega
        rw [e3]
      · obtain ⟨q, rfl⟩ : ∃ q, r = q + 1 := ⟨r - 1, by omega⟩
        have e4 : q + 1 + 1 - 1 = q + 1 := by omega
        have e5 : q + 1 - 1 = q := by omega
        rw [e4, e5, List.range_succ_eq_map]
        simp only [List.map_cons, List.map_map]
        have e6 : attempt + 0 = attempt := by omega
        rw [e6]
        congr 1
        apply List.map_congr_left
        intro j _
        show 50 * 2 ^ (attempt + 1 + j) = 50 * 2 ^ (attempt + Nat.succ j)
        have e7 : attempt + 1 + j = attempt + Nat.succ j := by omega
        rw [e7]
    · have hr0 : r = 0 := by omega
      subst hr0
      simp only []
      rw [if_neg (by simp)]
      simp

/-- C4: the retrying rename primitive propagates a non-transient error
immediately — one attempt, no sleep, filesystem untouched — while under a
persistently transient error it makes exactly 8 attempts, sleeping
50, 100, 200, 400, 800, 1600, 3200 ms between consecutive attempts, and
then surfaces the last error. -/
theorem c4_retry (env : Nat → Option PyError) (src dst : PyPath) (fs : List PyPath)
    (clock : Nat) :
    (∀ e : PyError, env clock = some e → transient e = false →
      renameWithRetry env src dst fs clock 8 = ⟨some e, fs, clock + 1, []⟩) ∧
    (∀ errs : Nat → PyError,
      (∀ k, k < 8 → env (clock + k) = some (errs k) ∧ transient (errs k) = true) →
      renameWithRetry env src dst fs clock 8 =
        ⟨some (errs 7), fs, clock + 8, [50, 100, 200, 400, 800, 1600, 3200]⟩) := by
  constructor
  · intro e he hne
    show retryLoopGo env src dst 8 0 fs clock = _
    rw [retryLoopGo_succ, he]
    simp only []
    rw [if_neg (by simp [hne])]
  · intro errs herrs
    have h := retryLoopGo_transient env src dst errs 8 0 fs clock (by omega)
      (by intro k hk
          have hh := herrs k hk
          have e1 : (0 : Nat) + k = k := by omega
          rw [e1]
          exact hh)
    show retryLoopGo env src dst 8 0 fs clock = _
    rw [h]
    have hs : (List.range (8 - 1)).map (fun j => 50 * 2 ^ (0 + j)) =
        [50, 100, 200, 400, 800, 1600, 3200] := by decide
    rw [hs]

theorem c4_retry_witness :
    renameWithRetry (fun _ => some ⟨false, none, none, "invalid"⟩)
        ⟨"d", "a"⟩ ⟨"d", "b"⟩ [] 0 8 =
      ⟨some ⟨false, none, none, "invalid"⟩, [], 1, []⟩ ∧
    renameWithRetry (fun _ => some ⟨true, none, none, "locked"⟩)
        ⟨"d", "a"⟩ ⟨"d", "b"⟩ [] 0 8 =
      ⟨some ⟨true, none, none, "locked"⟩, [], 8, [50, 100, 200, 400, 800, 1600, 3200]⟩ := by
  constructor
  · exact (c4_retry (fun _ => some ⟨false, none, none, "invalid"⟩)
      ⟨"d", "a"⟩ ⟨"d", "b"⟩ [] 0).1 ⟨false, none, none, "invalid"⟩ rfl (by decide)
  · exact (c4_retry (fun _ => some ⟨true, none, none, "locked"⟩)
      ⟨"d", "a"⟩ ⟨"d", "b"⟩ [] 0).2 (fun _ => ⟨true, none, none, "locked"⟩)
      (fun k _ => ⟨rfl, rfl⟩)

/-! Structure of the two-phase executor. -/

theorem isAFail_amsg (o t : PyPath) (m : String) :
    isAFail ⟨o, t, false, some ("阶段A失败: " ++ m)⟩ = true := by
  show (("阶段A失败: " ++ m).toList.take 5 == "阶段A失败".toList) = true
  rw [str_toList_append]
  rw [List.take_append_eq_append_take]
  have h2 : 5 - ("阶段A失败: " : String).toList.length = 0 := by decide
  rw [h2, List.take_zero, List.append_nil]
  decide

theorem isAFail_bmsg (o t : PyPath) (m : String) :
    isAFail ⟨o, t, false, some ("阶段B失败: " ++ m)⟩ = false := by
  show (("阶段B失败: " ++ m).toList.take 5 == "阶段A失败".toList) = false
  rw [str_toList_append]
  rw [List.take_append_eq_append_take]
  have h2 : 5 - ("阶段B失败: " : String).toList.length = 0 := by decide
  rw [h2, List.take_zero, List.append_nil]
  decide

theorem isBFail_amsg (o t : PyPath) (m : String) :
    isBFail ⟨o, t, false, some ("阶段A失败: " ++ m)⟩ = false := by
  show (("阶段A失败: " ++ m).toList.take 5 == "阶段B失败".toList) = false
  rw [str_toList_append]
  rw [List.take_append_eq_append_take]
  have h2 : 5 - ("阶段A失败: " : String).toList.length = 0 := by decide
  rw [h2, List.take_zero, List.append_nil]
  decide

theorem isBFail_bmsg (o t : PyPath) (m : String) :
    isBFail ⟨o, t, false, some ("阶段B失败: " ++ m)⟩ = true := by
  show (("阶段B失败: " ++ m).toList.take 5 == "阶段B失败".toList) = true
  rw [str_toList_append]
  rw [List.take_append_eq_append_take]
  have h2 : 5 - ("阶段B失败: " : String).toList.length = 0 := by decide
  rw [h2, List.take_zero, List.append_nil]
  decide

theorem dictInsert_fresh (m : List (PyPath × PyPath)) (k v : PyPath)
    (h : k ∉ m.map Prod.fst) : dictInsert m k v = m ++ [(k, v)] := by
  unfold dictInsert
  rw [if_neg]
  intro hany
  rw [List.any_eq_true] at hany
  obtain ⟨kv, hkv, hbeq⟩ := hany
  rw [beq_iff_eq] at hbeq
  exact h (hbeq ▸ List.mem_map_of_mem Prod.fst hkv)

theorem dictInsert_mem (m : List (PyPath × PyPath)) (k v : PyPath) :
    ∀ kv ∈ dictInsert m k v, kv ∈ m ∨ kv = (k, v) := by
  intro kv hkv
  unfold dictInsert at hkv
  by_cases h : m.any (fun kv => kv.1 == k)
  · rw [if_pos h] at hkv
    obtain ⟨orig, horig, heq⟩ := List.mem_map.mp hkv
    by_cases h2 : orig.1 = k
    · right
      rw [if_pos h2] at heq
      exact heq.symm
    · left
      rw [if_neg h2] at heq
      exact heq ▸ horig
  · rw [if_neg h] at hkv
    rcases List.mem_append.mp hkv with h1 | h1
    · left; exact h1
    · right; simpa using h1

/-- One step of Phase A: either a success that inserts into the dict or a
failure that appends a failed result; either way progress ticks once. -/
theorem phaseA_cons (env : Nat → Option PyError) (uuids : Nat → String)
    (old tgt : PyPath) (rest : List (PyPath × PyPath)) (i : Nat) (st : AState) :
    (∃ fs2 clock2, phaseA env uuids ((old, tgt) :: rest) i st =
        phaseA env uuids rest (i + 1)
          ⟨dictInsert st.tempMap (tempName old (uuids i)) tgt, st.results,
            fs2, clock2, st.ticks + 1⟩) ∨
    (∃ m fs2 clock2, phaseA env uuids ((old, tgt) :: rest) i st =
        phaseA env uuids rest (i + 1)
          ⟨st.tempMap, st.results ++ [⟨old, tgt, false, some ("阶段A失败: " ++ m)⟩],
            fs2, clock2, st.ticks + 1⟩) := by
  simp only [phaseA]
  cases hr : (renameWithRetry env old (tempName old (uuids i)) st.fs st.clock 8).err with
  | none => left; exact ⟨_, _, rfl⟩
  | some e => right; exact ⟨e.msg, _, _, rfl⟩

/-- Phase A ticks once per mapping; every result it adds is a Phase-A
failure carrying its input mapping's old and new paths; all dict values it
adds are targets from the mapping list. -/
theorem phaseA_spec (env : Nat → Option PyError) (uuids : Nat → String) :
    ∀ (l : List (PyPath × PyPath)) (i : Nat) (st : AState),
      (phaseA env uuids l i st).ticks = st.ticks + l.length ∧
      (∀ r ∈ (phaseA env uuids l i st).results, r ∈ st.results ∨
        ∃ tp, tp ∈ l ∧ ∃ m, r = ⟨tp.1, tp.2, false, some ("阶段A失败: " ++ m)⟩) ∧
      (∀ kv ∈ (phaseA env uuids l i st).tempMap, kv ∈ st.tempMap ∨
        kv.2 ∈ l.map Prod.snd) := by
  intro l
  induction l with
  | nil =>
    intro i st
    refine ⟨by simp [phaseA], ?_, ?_⟩
    · intro r hr; left; exact hr
    · intro kv hkv; left; exact hkv
  | cons hd rest ih =>
    intro i st
    obtain ⟨old, tgt⟩ := hd
    rcases phaseA_cons env uuids old tgt rest i st with ⟨fs2, clock2, heq⟩ | ⟨m, fs2, clock2, heq⟩
    · rw [heq]
      obtain ⟨ht, hres, hmap⟩ := ih (i + 1)
        ⟨dictInsert st.tempMap (tempName old (uuids i)) tgt, st.results, fs2, clock2, st.ticks + 1⟩
      refine ⟨?_, ?_, ?_⟩
      · rw [ht]
        show st.ticks + 1 + rest.length = st.ticks + (rest.length + 1)
        omega
      · intro r hr
        rcases hres r hr with hin | ⟨tp, htp, m2, hsh⟩
        · left; exact hin
        · right; exact ⟨tp, List.mem_cons_of_mem _ htp, m2, hsh⟩
      · intro kv hkv
        rcases hmap kv hkv with hin | hval
        · rcases dictInsert_mem st.tempMap (tempName old (uuids i)) tgt kv hin with h1 | h1
          · left; exact h1
          · right
            rw [h1]
            exact List.mem_cons_self _ _
        · right
          exact List.mem_cons_of_mem _ hval
    · rw [heq]
      obtain ⟨ht, hres, hmap⟩ := ih (i + 1)
        ⟨st.tempMap, st.results ++ [⟨old, tgt, false, some ("阶段A失败: " ++ m)⟩],
          fs2, clock2, st.ticks + 1⟩
      refine ⟨?_, ?_, ?_⟩
      · rw [ht]
        show st.ticks + 1 + rest.length = st.ticks + (rest.length + 1)
        omega
      · intro r hr
        rcases hres r hr with hin | ⟨tp, htp, m2, hsh⟩
        · rcases List.mem_append.mp hin with h1 | h1
          · left; exact h1
          · right
            refine ⟨(old, tgt), List.mem_cons_self _ _, m, ?_⟩
            simpa using h1
        · right; exact ⟨tp, List.mem_cons_of_mem _ htp, m2, hsh⟩
      · intro kv hkv
        rcases hmap kv hkv with hin | hval
        · left; exact hin
        · right; exact List.mem_cons_of_mem _ hval

/-- Counting Phase A when the synthesized temp names are pairwise distinct
and do not collide with keys already in the dict: every mapping
contributes exactly one dict entry or one failed result. -/
theorem phaseA_count (env : Nat → Option PyError) (uuids : Nat → String) :
    ∀ (l : List (PyPath × PyPath)) (i : Nat) (st : AState),
      (tempsFrom uuids i l).Nodup →
      (∀ k ∈ st.tempMap.map Prod.fst, k ∉ tempsFrom uuids i l) →
      (phaseA env uuids l i st).tempMap.length + (phaseA env uuids l i st).results.length =
        st.tempMap.length + st.results.length + l.length ∧
      (∀ k ∈ (phaseA env uuids l i st).tempMap.map Prod.fst,
        k ∈ st.tempMap.map Prod.fst ∨ k ∈ tempsFrom uuids i l) := by
  intro l
  induction l with
  | nil =>
    intro i st _ _
    refine ⟨by simp [phaseA], ?_⟩
    intro k hk
    left
    exact hk
  | cons hd rest ih =>
    intro i st hnd hdisj
    obtain ⟨old, tgt⟩ := hd
    have htemps : tempsFrom uuids i ((old, tgt) :: rest) =
        tempName old (uuids i) :: tempsFrom uuids (i + 1) rest := rfl
    rw [htemps] at hnd hdisj
    have hfresh : tempName old (uuids i) ∉ st.tempMap.map Prod.fst := by
      intro hmem
      exact hdisj _ hmem (List.mem_cons_self _ _)
    rcases phaseA_cons env uuids old tgt rest i st with ⟨fs2, clock2, heq⟩ | ⟨m, fs2, clock2, heq⟩
    · rw [heq]
      rw [dictInsert_fresh st.tempMap (tempName old (uuids i)) tgt hfresh]
      have hnd2 : (tempsFrom uuids (i + 1) rest).Nodup := hnd.of_cons
      have hdisj2 : ∀ k ∈ (st.tempMap ++ [(tempName old (uuids i), tgt)]).map Prod.fst,
          k ∉ tempsFrom uuids (i + 1) rest := by
        intro k hk
        rw [List.map_append] at hk
        rcases List.mem_append.mp hk with h1 | h1
        · intro hmem
          exact hdisj k h1 (List.mem_cons_of_mem _ hmem)
        · simp at h1
          rw [h1]
          exact (List.nodup_cons.mp hnd).1
      obtain ⟨hcount, hkeys⟩ := ih (i + 1)
        ⟨st.tempMap ++ [(tempName old (uuids i), tgt)], st.results, fs2, clock2, st.ticks + 1⟩
        hnd2 hdisj2
      refine ⟨?_, ?_⟩
      · rw [hcount]
        simp only [List.length_append, List.length_cons, List.length_nil]
        omega
      · intro k hk
        rcases hkeys k hk with h1 | h1
        · show k ∈ st.tempMap.map Prod.fst ∨ _
          rw [List.map_append] at h1
          rcases List.mem_append.mp h1 with h2 | h2
          · left; exact h2
          · right
            simp at h2
            rw [h2]
            exact List.mem_cons_self _ _
        · right
          exact List.mem_cons_of_mem _ h1
    · rw [heq]
      have hnd2 : (tempsFrom uuids (i + 1) rest).Nodup := hnd.of_cons
      have hdisj2 : ∀ k ∈ st.tempMap.map Prod.fst, k ∉ tempsFrom uuids (i + 1) rest := by
        intro k hk hmem
        exact hdisj k hk (List.mem_cons_of_mem _ hmem)
      obtain ⟨hcount, hkeys⟩ := ih (i + 1)
        ⟨st.tempMap, st.results ++ [⟨old, tgt, false, some ("阶段A失败: " ++ m)⟩],
          fs2, clock2, st.ticks + 1⟩ hnd2 hdisj2
      refine ⟨?_, ?_⟩
      · rw [hcount]
        simp only [List.length_append, List.length_cons, List.length_nil]
        omega
      · intro k hk
        rcases hkeys k hk with h1 | h1
        · left; exact h1
        · right; exact List.mem_cons_of_mem _ h1

/-- One step of Phase B: whatever the branch (target occupied, rename
success, rename failure with or without rollback), exactly one result of a
known shape is appended and progress ticks once. -/
theorem phaseB_cons (env : Nat → Option PyError) (temp target : PyPath)
    (rest : List (PyPath × PyPath)) (st : BState) :
    ∃ (x : RenameResult) (fs2 : List PyPath) (clock2 : Nat),
      phaseB env ((temp, target) :: rest) st =
        phaseB env rest ⟨st.results ++ [x], fs2, clock2, st.ticks + 1⟩ ∧
      (x = ⟨target, target, true, none⟩ ∨
        ∃ m, x = ⟨rollbackOrigin target, target, false, some ("阶段B失败: " ++ m)⟩) := by
  simp only [phaseB]
  by_cases h1 : target ∈ st.fs
  · rw [if_pos h1]
    by_cases h2 : rollbackOrigin target ∈ st.fs
    · rw [if_pos h2]
      exact ⟨_, _, _, rfl, Or.inr ⟨"目标已存在", rfl⟩⟩
    · rw [if_neg h2]
      exact ⟨_, _, _, rfl, Or.inr ⟨"目标已存在", rfl⟩⟩
  · rw [if_neg h1]
    cases hr : (renameWithRetry env temp target st.fs st.clock 8).err with
    | none => exact ⟨_, _, _, rfl, Or.inl rfl⟩
    | some e =>
      by_cases h2 : rollbackOrigin target ∈ (renameWithRetry env temp target st.fs st.clock 8).fs
      · rw [if_pos h2]
        exact ⟨_, _, _, rfl, Or.inr ⟨e.msg, rfl⟩⟩
      · rw [if_neg h2]
        exact ⟨_, _, _, rfl, Or.inr ⟨e.msg, rfl⟩⟩

/-- Phase B ticks once per dict entry, appends exactly one result per
entry, every appended result is a success `(target, target, true, none)`
or a failure `(rollbackOrigin target, target, false, "阶段B失败: …")`, and
no appended result carries a Phase-A failure message. -/
theorem phaseB_spec (env : Nat → Option PyError) :
    ∀ (l : List (PyPath × PyPath)) (st : BState),
      (phaseB env l st).ticks = st.ticks + l.length ∧
      (phaseB env l st).results.length = st.results.length + l.length ∧
      (∀ r ∈ (phaseB env l st).results, r ∈ st.results ∨
        ∃ tp, tp ∈ l ∧ (r = ⟨tp.2, tp.2, true, none⟩ ∨
          ∃ m, r = ⟨rollbackOrigin tp.2, tp.2, false, some ("阶段B失败: " ++ m)⟩)) ∧
      (phaseB env l st).results.countP isAFail = st.results.countP isAFail := by
  intro l
  induction l with
  | nil =>
    intro st
    exact ⟨by simp [phaseB], by simp [phaseB], fun r hr => Or.inl hr, rfl⟩
  | cons tp rest ih =>
    intro st
    obtain ⟨temp, target⟩ := tp
    obtain ⟨x, fs2, clock2, heq, hx⟩ := phaseB_cons env temp target rest st
    rw [heq]
    obtain ⟨ht, hlen, hmem, hcnt⟩ := ih ⟨st.results ++ [x], fs2, clock2, st.ticks + 1⟩
    have hxa : isAFail x = false := by
      rcases hx with h | ⟨m, h⟩
      · rw [h]; rfl
      · rw [h]; exact isAFail_bmsg _ _ m
    refine ⟨?_, ?_, ?_, ?_⟩
    · rw [ht]
      show st.ticks + 1 + rest.length = st.ticks + (rest.length + 1)
      omega
    · rw [hlen]
      simp only [List.length_append, List.length_cons, List.length_nil]
      omega
    · intro r hr
      rcases hmem r hr with hin | ⟨tp2, htp2, hshape⟩
      · rcases List.mem_append.mp hin with h | h
        · left; exact h
        · right
          refine ⟨(temp, target), List.mem_cons_self _ _, ?_⟩
          have hrx : r = x := by simpa using h
          rw [hrx]
          exact hx
      · right
        exact ⟨tp2, List.mem_cons_of_mem _ htp2, hshape⟩
    · rw [hcnt]
      show (st.results ++ [x]).countP isAFail = st.results.countP isAFail
      rw [List.countP_append]
      simp [List.countP_cons, hxa]

theorem takeBeforeMatch_no_match (pat : List Char) :
    ∀ cs, hasMatch pat cs = false → takeBeforeMatch pat cs = cs := by
  intro cs
  induction cs with
  | nil => intro _; rfl
  | cons c rest ih =>
    intro h
    simp only [hasMatch, Bool.or_eq_false_iff] at h
    simp only [takeBeforeMatch]
    rw [if_neg (by simp [h.1])]
    rw [ih h.2]

theorem str_mk_toList (s : String) : String.mk s.toList = s := by
  cases s
  rfl

/-- When the target's stem does not contain the temp marker, the computed
rollback origin is the target itself. -/
theorem rollbackOrigin_eq (p : PyPath)
    (h : hasMatch tmpMarker (pyStem p.name).toList = false) :
    rollbackOrigin p = p := by
  unfold rollbackOrigin
  rw [takeBeforeMatch_no_match tmpMarker _ h]
  rw [str_mk_toList]
  rw [pyStem_append_pySuffix]
  cases p
  rfl

/-- C5: with pairwise-distinct synthesized temp names (the model of
`uuid.uuid4()` uniqueness), the executor returns exactly one result per
input mapping; every result is either the single Phase-A failure record of
one input mapping, carrying that mapping's old and new paths, or a Phase-B
record for one input mapping's target; and every SUCCESSFUL result is
literally `(target, target, true, null)` for its mapping's target — the
settled final name in both path positions, never the transient temp
name. -/
theorem c5_results (env : Nat → Option PyError) (uuids : Nat → String)
    (mappings : List (PyPath × PyPath)) (fs0 : List PyPath)
    (hnd : (tempsFrom uuids 0 mappings).Nodup) :
    (two_phase_rename env uuids mappings fs0).results.length = mappings.length ∧
    (∀ r ∈ (two_phase_rename env uuids mappings fs0).results, r.success = true →
      ∃ tp, tp ∈ mappings ∧ r = ⟨tp.2, tp.2, true, none⟩) ∧
    (∀ r ∈ (two_phase_rename env uuids mappings fs0).results,
      (∃ tp, tp ∈ mappings ∧ ∃ m, r = ⟨tp.1, tp.2, false, some ("阶段A失败: " ++ m)⟩) ∨
      (∃ tp, tp ∈ mappings ∧ (r = ⟨tp.2, tp.2, true, none⟩ ∨
        ∃ m, r = ⟨rollbackOrigin tp.2, tp.2, false, some ("阶段B失败: " ++ m)⟩))) := by
  obtain ⟨hAt, hAres, hAval⟩ := phaseA_spec env uuids mappings 0 ⟨[], [], fs0, 0, 0⟩
  obtain ⟨hAcount, hAkeys⟩ := phaseA_count env uuids mappings 0 ⟨[], [], fs0, 0, 0⟩ hnd
    (by intro k hk; simp at hk)
  obtain ⟨hBt, hBlen, hBmem, hBcnt⟩ := phaseB_spec env
    (phaseA env uuids mappings 0 ⟨[], [], fs0, 0, 0⟩).tempMap
    ⟨(phaseA env uuids mappings 0 ⟨[], [], fs0, 0, 0⟩).results,
     (phaseA env uuids mappings 0 ⟨[], [], fs0, 0, 0⟩).fs,
     (phaseA env uuids mappings 0 ⟨[], [], fs0, 0, 0⟩).clock,
     (phaseA env uuids mappings 0 ⟨[], [], fs0, 0, 0⟩).ticks⟩
  have hres : (two_phase_rename env uuids mappings fs0).results =
      (phaseB env (phaseA env uuids mappings 0 ⟨[], [], fs0, 0, 0⟩).tempMap
        ⟨(phaseA env uuids mappings 0 ⟨[], [], fs0, 0, 0⟩).results,
         (phaseA env uuids mappings 0 ⟨[], [], fs0, 0, 0⟩).fs,
         (phaseA env uuids mappings 0 ⟨[], [], fs0, 0, 0⟩).clock,
         (phaseA env uuids mappings 0 ⟨[], [], fs0, 0, 0⟩).ticks⟩).results := rfl
  have eres : (⟨(phaseA env uuids mappings 0 ⟨[], [], fs0, 0, 0⟩).results,
      (phaseA env uuids mappings 0 ⟨[], [], fs0, 0, 0⟩).fs,
      (phaseA env uuids mappings 0 ⟨[], [], fs0, 0, 0⟩).clock,
      (phaseA env uuids mappings 0 ⟨[], [], fs0, 0, 0⟩).ticks⟩ : BState).results =
      (phaseA env uuids mappings 0 ⟨[], [], fs0, 0, 0⟩).results := rfl
  rw [eres] at hBlen
  have hclassify : ∀ r ∈ (phaseB env
      (phaseA env uuids mappings 0 ⟨[], [], fs0, 0, 0⟩).tempMap
      ⟨(phaseA env uuids mappings 0 ⟨[], [], fs0, 0, 0⟩).results,
       (phaseA env uuids mappings 0 ⟨[], [], fs0, 0, 0⟩).fs,
       (phaseA env uuids mappings 0 ⟨[], [], fs0, 0, 0⟩).clock,
       (phaseA env uuids mappings 0 ⟨[], [], fs0, 0, 0⟩).ticks⟩).results,
      (∃ tp, tp ∈ mappings ∧ ∃ m, r = ⟨tp.1, tp.2, false, some ("阶段A失败: " ++ m)⟩) ∨
      (∃ tp, tp ∈ mappings ∧ (r = ⟨tp.2, tp.2, true, none⟩ ∨
        ∃ m, r = ⟨rollbackOrigin tp.2, tp.2, false, some ("阶段B失败: " ++ m)⟩)) := by
    intro r hr
    rcases hBmem r hr with hin | ⟨tp, htp, hshape⟩
    · rcases hAres r hin with hnil | ⟨tp2, htp2, m, hsh⟩
      · exact absurd hnil (List.not_mem_nil r)
      · left
        exact ⟨tp2, htp2, m, hsh⟩
    · rcases hAval tp htp with hnil | hval
      · exact absurd hnil (List.not_mem_nil tp)
      · obtain ⟨tp2, htp2, heq2⟩ := List.mem_map.mp hval
        right
        refine ⟨tp2, htp2, ?_⟩
        rw [heq2]
        exact hshape
  refine ⟨?_, ?_, ?_⟩
  · rw [hres, hBlen]
    simp only [List.length_nil] at hAcount
    omega
  · intro r hr hsucc
    rw [hres] at hr
    rcases hclassify r hr with ⟨tp, htp, m, hsh⟩ | ⟨tp, htp, hshape⟩
    · rw [hsh] at hsucc
      exact absurd hsucc (by simp)
    · rcases hshape with hok | ⟨m, hfail⟩
      · exact ⟨tp, htp, hok⟩
      · rw [hfail] at hsucc
        exact absurd hsucc (by simp)
  · intro r hr
    rw [hres] at hr
    exact hclassify r hr

theorem c5_results_witness :
    (two_phase_rename (fun _ => none) (fun _ => "u0")
        [(⟨"d", "a.jpg"⟩, ⟨"d", "b.jpg"⟩)] [⟨"d", "a.jpg"⟩]).results.length = 1 ∧
    (∀ r ∈ (two_phase_rename (fun _ => none) (fun _ => "u0")
        [(⟨"d", "a.jpg"⟩, ⟨"d", "b.jpg"⟩)] [⟨"d", "a.jpg"⟩]).results, r.success = true →
      ∃ tp, tp ∈ [((⟨"d", "a.jpg"⟩ : PyPath), (⟨"d", "b.jpg"⟩ : PyPath))] ∧
        r = ⟨tp.2, tp.2, true, none⟩) ∧
    (∀ r ∈ (two_phase_rename (fun _ => none) (fun _ => "u0")
        [(⟨"d", "a.jpg"⟩, ⟨"d", "b.jpg"⟩)] [⟨"d", "a.jpg"⟩]).results,
      (∃ tp, tp ∈ [((⟨"d", "a.jpg"⟩ : PyPath), (⟨"d", "b.jpg"⟩ : PyPath))] ∧
        ∃ m, r = ⟨tp.1, tp.2, false, some ("阶段A失败: " ++ m)⟩) ∨
      (∃ tp, tp ∈ [((⟨"d", "a.jpg"⟩ : PyPath), (⟨"d", "b.jpg"⟩ : PyPath))] ∧
        (r = ⟨tp.2, tp.2, true, none⟩ ∨
          ∃ m, r = ⟨rollbackOrigin tp.2, tp.2, false, some ("阶段B失败: " ++ m)⟩))) :=
  c5_results (fun _ => none) (fun _ => "u0")
    [(⟨"d", "a.jpg"⟩, ⟨"d", "b.jpg"⟩)] [⟨"d", "a.jpg"⟩] (by decide)

/-- C3 counterexample: a single mapping whose Phase-A rename fails
non-transiently produces exactly ONE progress tick, not
`2 × len(mappings) = 2`. -/
theorem c3_counterexample :
    (two_phase_rename (fun _ => some ⟨false, none, none, "io error"⟩) (fun _ => "u0")
        [(⟨"d", "a.jpg"⟩, ⟨"d", "b.jpg"⟩)] [⟨"d", "a.jpg"⟩]).ticks = 1 ∧
    (two_phase_rename (fun _ => some ⟨false, none, none, "io error"⟩) (fun _ => "u0")
        [(⟨"d", "a.jpg"⟩, ⟨"d", "b.jpg"⟩)] [⟨"d", "a.jpg"⟩]).ticks ≠
      2 * [((⟨"d", "a.jpg"⟩ : PyPath), (⟨"d", "b.jpg"⟩ : PyPath))].length := by
  decide

/-- C3 amended: with pairwise-distinct temp names, the progress callback
is invoked `2 × len(mappings) − (number of Phase-A failures)` times: each
mapping ticks once in Phase A, but a Phase-A failure is excluded from
Phase B and therefore advances progress only one unit in total; only a run
whose Phase A fully succeeds reaches `2 × len(mappings)` ticks. -/
theorem c3_progress (env : Nat → Option PyError) (uuids : Nat → String)
    (mappings : List (PyPath × PyPath)) (fs0 : List PyPath)
    (hnd : (tempsFrom uuids 0 mappings).Nodup) :
    (two_phase_rename env uuids mappings fs0).ticks +
      (two_phase_rename env uuids mappings fs0).results.countP isAFail =
      2 * mappings.length := by
  obtain ⟨hAt, hAres, hAval⟩ := phaseA_spec env uuids mappings 0 ⟨[], [], fs0, 0, 0⟩
  obtain ⟨hAcount, hAkeys⟩ := phaseA_count env uuids mappings 0 ⟨[], [], fs0, 0, 0⟩ hnd
    (by intro k hk; simp at hk)
  obtain ⟨hBt, hBlen, hBmem, hBcnt⟩ := phaseB_spec env
    (phaseA env uuids mappings 0 ⟨[], [], fs0, 0, 0⟩).tempMap
    ⟨(phaseA env uuids mappings 0 ⟨[], [], fs0, 0, 0⟩).results,
     (phaseA env uuids mappings 0 ⟨[], [], fs0, 0, 0⟩).fs,
     (phaseA env uuids mappings 0 ⟨[], [], fs0, 0, 0⟩).clock,
     (phaseA env uuids mappings 0 ⟨[], [], fs0, 0, 0⟩).ticks⟩
  have hres : (two_phase_rename env uuids mappings fs0).results =
      (phaseB env (phaseA env uuids mappings 0 ⟨[], [], fs0, 0, 0⟩).tempMap
        ⟨(phaseA env uuids mappings 0 ⟨[], [], fs0, 0, 0⟩).results,
         (phaseA env uuids mappings 0 ⟨[], [], fs0, 0, 0⟩).fs,
         (phaseA env uuids mappings 0 ⟨[], [], fs0, 0, 0⟩).clock,
         (phaseA env uuids mappings 0 ⟨[], [], fs0, 0, 0⟩).ticks⟩).results := rfl
  have hticks : (two_phase_rename env uuids mappings fs0).ticks =
      (phaseB env (phaseA env uuids mappings 0 ⟨[], [], fs0, 0, 0⟩).tempMap
        ⟨(phaseA env uuids mappings 0 ⟨[], [], fs0, 0, 0⟩).results,
         (phaseA env uuids mappings 0 ⟨[], [], fs0, 0, 0⟩).fs,
         (phaseA env uuids mappings 0 ⟨[], [], fs0, 0, 0⟩).clock,
         (phaseA env uuids mappings 0 ⟨[], [], fs0, 0, 0⟩).ticks⟩).ticks := rfl
  have hall : ∀ r ∈ (phaseA env uuids mappings 0 ⟨[], [], fs0, 0, 0⟩).results,
      isAFail r = true := by
    intro r hr
    rcases hAres r hr with hnil | ⟨tp, _, m, hsh⟩
    · exact absurd hnil (List.not_mem_nil r)
    · rw [hsh]
      exact isAFail_amsg tp.1 tp.2 m
  have hcntA : (phaseA env uuids mappings 0 ⟨[], [], fs0, 0, 0⟩).results.countP isAFail =
      (phaseA env uuids mappings 0 ⟨[], [], fs0, 0, 0⟩).results.length :=
    List.countP_eq_length.mpr hall
  have eres : (⟨(phaseA env uuids mappings 0 ⟨[], [], fs0, 0, 0⟩).results,
      (phaseA env uuids mappings 0 ⟨[], [], fs0, 0, 0⟩).fs,
      (phaseA env uuids mappings 0 ⟨[], [], fs0, 0, 0⟩).clock,
      (phaseA env uuids mappings 0 ⟨[], [], fs0, 0, 0⟩).ticks⟩ : BState).results =
      (phaseA env uuids mappings 0 ⟨[], [], fs0, 0, 0⟩).results := rfl
  have eticks : (⟨(phaseA env uuids mappings 0 ⟨[], [], fs0, 0, 0⟩).results,
      (phaseA env uuids mappings 0 ⟨[], [], fs0, 0, 0⟩).fs,
      (phaseA env uuids mappings 0 ⟨[], [], fs0, 0, 0⟩).clock,
      (phaseA env uuids mappings 0 ⟨[], [], fs0, 0, 0⟩).ticks⟩ : BState).ticks =
      (phaseA env uuids mappings 0 ⟨[], [], fs0, 0, 0⟩).ticks := rfl
  rw [eres] at hBcnt
  rw [eticks] at hBt
  rw [hticks, hres, hBt, hBcnt, hcntA, hAt]
  have einit : (⟨[], [], fs0, 0, 0⟩ : AState).ticks = 0 := rfl
  rw [einit]
  simp only [List.length_nil] at hAcount
  omega

theorem c3_progress_witness :
    (two_phase_rename (fun _ => some ⟨false, none, none, "io error"⟩) (fun _ => "u0")
        [(⟨"d", "a.jpg"⟩, ⟨"d", "b.jpg"⟩)] [⟨"d", "a.jpg"⟩]).ticks +
      (two_phase_rename (fun _ => some ⟨false, none, none, "io error"⟩) (fun _ => "u0")
        [(⟨"d", "a.jpg"⟩, ⟨"d", "b.jpg"⟩)] [⟨"d", "a.jpg"⟩]).results.countP isAFail =
      2 * 1 :=
  c3_progress (fun _ => some ⟨false, none, none, "io error"⟩) (fun _ => "u0")
    [(⟨"d", "a.jpg"⟩, ⟨"d", "b.jpg"⟩)] [⟨"d", "a.jpg"⟩] (by decide)

/-- C10 counterexample: the planner accepts a prefix containing the temp
marker, producing an OK row whose target stem contains `".__tmp__"`; on a
Phase-B failure for that mapping the computed rollback origin is `x.jpg`,
which differs from the target, so the origin does NOT always equal the
target (and the file is rolled back to `x.jpg`, a name that is neither the
original `a.jpg` nor the target). -/
theorem c10_counterexample :
    generate_preview_mappings "d" ["a.jpg"] [⟨"d", "a.jpg"⟩] "x.__tmp__" =
      [⟨⟨"d", "a.jpg"⟩, ⟨"d", "x.__tmp__001.jpg"⟩, "OK"⟩] ∧
    (two_phase_rename
        (fun k => if k = 1 then some ⟨false, none, none, "io error"⟩ else none)
        (fun _ => "u0")
        [(⟨"d", "a.jpg"⟩, ⟨"d", "x.__tmp__001.jpg"⟩)] [⟨"d", "a.jpg"⟩]).results =
      [⟨⟨"d", "x.jpg"⟩, ⟨"d", "x.__tmp__001.jpg"⟩, false, some "阶段B失败: io error"⟩] ∧
    rollbackOrigin ⟨"d", "x.__tmp__001.jpg"⟩ ≠ ⟨"d", "x.__tmp__001.jpg"⟩ := by
  decide

/-- C10 amended: the rollback origin is computed by splitting the TARGET
path's stem on `".__tmp__"`; whenever a target's stem does not contain the
marker (true of every planner output whose prefix avoids the marker), the
computed origin equals the target itself, and consequently every Phase-B
failure result reports the target in both its first (origin) and second
(target) path positions — the rollback, when it runs, moves the temp file
to the TARGET name, never to the file's original name. -/
theorem c10_rollback_origin (env : Nat → Option PyError) (uuids : Nat → String)
    (mappings : List (PyPath × PyPath)) (fs0 : List PyPath)
    (hm : ∀ tp ∈ mappings, hasMatch tmpMarker (pyStem (tp.2).name).toList = false) :
    (∀ tp ∈ mappings, rollbackOrigin tp.2 = tp.2) ∧
    ∀ r ∈ (two_phase_rename env uuids mappings fs0).results,
      isBFail r = true → r.old = r.new := by
  obtain ⟨hAt, hAres, hAval⟩ := phaseA_spec env uuids mappings 0 ⟨[], [], fs0, 0, 0⟩
  obtain ⟨hBt, hBlen, hBmem, hBcnt⟩ := phaseB_spec env
    (phaseA env uuids mappings 0 ⟨[], [], fs0, 0, 0⟩).tempMap
    ⟨(phaseA env uuids mappings 0 ⟨[], [], fs0, 0, 0⟩).results,
     (phaseA env uuids mappings 0 ⟨[], [], fs0, 0, 0⟩).fs,
     (phaseA env uuids mappings 0 ⟨[], [], fs0, 0, 0⟩).clock,
     (phaseA env uuids mappings 0 ⟨[], [], fs0, 0, 0⟩).ticks⟩
  have hres : (two_phase_rename env uuids mappings fs0).results =
      (phaseB env (phaseA env uuids mappings 0 ⟨[], [], fs0, 0, 0⟩).tempMap
        ⟨(phaseA env uuids mappings 0 ⟨[], [], fs0, 0, 0⟩).results,
         (phaseA env uuids mappings 0 ⟨[], [], fs0, 0, 0⟩).fs,
         (phaseA env uuids mappings 0 ⟨[], [], fs0, 0, 0⟩).clock,
         (phaseA env uuids mappings 0 ⟨[], [], fs0, 0, 0⟩).ticks⟩).results := rfl
  constructor
  · intro tp htp
    exact rollbackOrigin_eq _ (hm tp htp)
  · intro r hr hbf
    rw [hres] at hr
    rcases hBmem r hr with hin | ⟨tp, htp, hshape⟩
    · rcases hAres r hin with hnil | ⟨tp3, _, m, hsh⟩
      · exact absurd hnil (List.not_mem_nil r)
      · rw [hsh] at hbf
        rw [isBFail_amsg tp3.1 tp3.2 m] at hbf
        exact absurd hbf (by simp)
    · rcases hAval tp htp with hnil | hval
      · exact absurd hnil (List.not_mem_nil tp)
      · obtain ⟨tp2, htp2, heq2⟩ := List.mem_map.mp hval
        have hm2 : hasMatch tmpMarker (pyStem (tp.2).name).toList = false := by
          rw [← heq2]
          exact hm tp2 htp2
        have horig : rollbackOrigin tp.2 = tp.2 := rollbackOrigin_eq _ hm2
        rcases hshape with hok | ⟨m, hfail⟩
        · rw [hok] at hbf
          exact absurd hbf (by simp [isBFail])
        · rw [hfail]
          show rollbackOrigin tp.2 = tp.2
          exact horig

theorem c10_rollback_origin_witness :
    (⟨⟨"d", "b.jpg"⟩, ⟨"d", "b.jpg"⟩, false,
        some "阶段B失败: io error"⟩ : RenameResult).old =
      (⟨⟨"d", "b.jpg"⟩, ⟨"d", "b.jpg"⟩, false,
        some "阶段B失败: io error"⟩ : RenameResult).new :=
  (c10_rollback_origin
      (fun k => if k = 1 then some ⟨false, none, none, "io error"⟩ else none)
      (fun _ => "u0")
      [(⟨"d", "a.jpg"⟩, ⟨"d", "b.jpg"⟩)] [⟨"d", "a.jpg"⟩] (by decide)).2
    ⟨⟨"d", "b.jpg"⟩, ⟨"d", "b.jpg"⟩, false, some "阶段B失败: io error"⟩
    (by decide) (by decide)

/-- C1: the code contradicts its own comment (`把临时名改回原名`, "rename
the temp name back to the ORIGINAL name") and the spec's rollback
property.  In this run the single mapping `a.jpg → b.jpg` passes Phase A,
Phase B's rename fails with a non-transient I/O error, and the original
slot `a.jpg` is free; yet the file ends up at `b.jpg` — the TARGET name —
because the rollback origin is computed from the target's stem
(`target.stem.split(".__tmp__")[0]`) instead of the temp's stem, and the
result records failure while both its reported paths are the target. -/
theorem c1_code_bug :
    (two_phase_rename
        (fun k => if k = 1 then some ⟨false, none, none, "io error"⟩ else none)
        (fun _ => "u0")
        [(⟨"d", "a.jpg"⟩, ⟨"d", "b.jpg"⟩)] [⟨"d", "a.jpg"⟩]).fs = [⟨"d", "b.jpg"⟩] ∧
    (⟨"d", "a.jpg"⟩ : PyPath) ∉
      (two_phase_rename
        (fun k => if k = 1 then some ⟨false, none, none, "io error"⟩ else none)
        (fun _ => "u0")
        [(⟨"d", "a.jpg"⟩, ⟨"d", "b.jpg"⟩)] [⟨"d", "a.jpg"⟩]).fs ∧
    (two_phase_rename
        (fun k => if k = 1 then some ⟨false, none, none, "io error"⟩ else none)
        (fun _ => "u0")
        [(⟨"d", "a.jpg"⟩, ⟨"d", "b.jpg"⟩)] [⟨"d", "a.jpg"⟩]).results =
      [⟨⟨"d", "b.jpg"⟩, ⟨"d", "b.jpg"⟩, false, some "阶段B失败: io error"⟩] := by
  decide
